import Mathlib

/-!
Shallow embedding of the address-formatter rendering pipeline
(`src/dist/cjs/address-formatter.js`): the mustache template engine
(scanner, parser, renderer), the cleanup pass, input normalisation and
the `format` entry point, together with proofs about the behaviour the
specification ascribes to them.  JavaScript strings are modelled as
`List Char` / `String`, objects as association lists in insertion order,
and the handful of fixed regular expressions of the source as bespoke
scanners with JavaScript `String.prototype.replace` first-match
semantics (a non-global regex replaces only the leftmost match).
-/

namespace AddrFmt

/-- JavaScript `\s` (the class used by `/\s/`, `String.prototype.trim`,
and spelled out as `[\t-\r \xA0\u1680\u2000-\u200A\u2028\u2029\u202F\u205F\u3000\uFEFF]`
in the transpiled cleanup regexes). -/
def isJsSpace (c : Char) : Bool :=
  c == '\t' || c == '\n' || c == '\x0b' || c == '\x0c' || c == '\r' || c == ' ' ||
  c == '\u00A0' || c == '\u1680' || ('\u2000' ≤ c && c ≤ '\u200A') ||
  c == '\u2028' || c == '\u2029' || c == '\u202F' || c == '\u205F' ||
  c == '\u3000' || c == '\uFEFF'

/-- The class `[\t ]` of horizontal whitespace used by several cleanup rules. -/
def isHoriz (c : Char) : Bool :=
  c == '\t' || c == ' '

/-- The class of the trailing-junk rule `/[\t-\r ,}\xA0...]+$/`: whitespace,
comma, or a closing curly brace. -/
def isTrailJunk (c : Char) : Bool :=
  isJsSpace c || c == ',' || c == '}'

/-- The class of the leading-junk rule `/^[\t-\r ,\xA0...]+/`: whitespace or
comma (no curly brace, unlike the trailing rule). -/
def isLeadJunk (c : Char) : Bool :=
  isJsSpace c || c == ','

/-- JavaScript `String.prototype.trim` on a character list. -/
def jsTrimL (l : List Char) : List Char :=
  ((l.dropWhile isJsSpace).reverse.dropWhile isJsSpace).reverse

/-- JavaScript `String.prototype.toLowerCase`, for the ASCII data the
formatter compares (the `new york` exemption, country codes). -/
def toLowerL (l : List Char) : List Char :=
  l.map Char.toLower

/-- JavaScript `String.prototype.toUpperCase` on ASCII data. -/
def toUpperL (l : List Char) : List Char :=
  l.map Char.toUpper

/-- `s.replace(re, d)` for a non-global regex: scan left to right for the
first position where the matcher succeeds and splice in its result (the
replacement followed by the rest of the input); leave the string unchanged
when no position matches.  Each matcher below answers, for the suffix
starting at the current position, `some` of the replaced suffix when its
regex matches there. -/
def replaceFirst (m : List Char → Option (List Char)) : List Char → List Char
  | [] =>
    match m [] with
    | some r => r
    | none => []
  | c :: rest =>
    match m (c :: rest) with
    | some r => r
    | none => c :: replaceFirst m rest

/-- Matcher of `/,[\s]*,/ → ", "`: a comma, a greedy whitespace run, a
comma.  The run cannot contain a comma, so the regex matches here exactly
when the character after the maximal whitespace run is a comma. -/
def mCommaWsComma : List Char → Option (List Char)
  | ',' :: t =>
    match t.dropWhile isJsSpace with
    | ',' :: tail => some (',' :: ' ' :: tail)
    | _ => none
  | _ => none

/-- Matcher of `/[\t ]+,[\t ]+/ → ", "`. -/
def mHorizCommaHoriz : List Char → Option (List Char)
  | c :: t =>
    if isHoriz c then
      match (c :: t).dropWhile isHoriz with
      | ',' :: t2 =>
        match t2 with
        | d :: _ => if isHoriz d then some (',' :: ' ' :: t2.dropWhile isHoriz) else none
        | [] => none
      | _ => none
    else none
  | [] => none

/-- Matcher of `/[\t ][\t ]+/ → " "`: a run of at least two horizontal
whitespace characters, replaced by one space. -/
def mMultiHoriz : List Char → Option (List Char)
  | c :: d :: t =>
    if isHoriz c && isHoriz d then some (' ' :: (c :: d :: t).dropWhile isHoriz) else none
  | _ => none

/-- Matcher of `/[\t ]\n/ → "\n"`. -/
def mHorizNl : List Char → Option (List Char)
  | c :: '\n' :: t => if isHoriz c then some ('\n' :: t) else none
  | _ => none

/-- Matcher of `/\n,/ → "\n"`. -/
def mNlComma : List Char → Option (List Char)
  | '\n' :: ',' :: t => some ('\n' :: t)
  | _ => none

/-- Matcher of `/,,+/ → ","`: a run of at least two commas, replaced by one. -/
def mMultiComma : List Char → Option (List Char)
  | ',' :: ',' :: t => some (',' :: ((',' :: ',' :: t).dropWhile (fun x => x == ',')))
  | _ => none

/-- Matcher of `/,\n/ → "\n"`. -/
def mCommaNl : List Char → Option (List Char)
  | ',' :: '\n' :: t => some ('\n' :: t)
  | _ => none

/-- Matcher of `/\n[\t ]+/ → "\n"`. -/
def mNlHoriz : List Char → Option (List Char)
  | '\n' :: c :: t => if isHoriz c then some ('\n' :: (c :: t).dropWhile isHoriz) else none
  | _ => none

/-- Matcher of `/\n\n+/ → "\n"`. -/
def mMultiNl : List Char → Option (List Char)
  | '\n' :: '\n' :: t => some ('\n' :: (('\n' :: '\n' :: t).dropWhile (fun x => x == '\n')))
  | _ => none

/-- `/[\t-\r ,}\xA0...]+$/` to the empty string: delete the maximal trailing run of
whitespace, commas and closing braces (the leftmost match of the anchored
regex is exactly that run). -/
def stripTrailingJunk (l : List Char) : List Char :=
  (l.reverse.dropWhile isTrailJunk).reverse

/-- `/^[\t-\r ,\xA0…]+/ → ""`: delete the maximal leading run of
whitespace and commas. -/
def stripLeadingJunk (l : List Char) : List Char :=
  l.dropWhile isLeadJunk

/-- `/^\x2D / → ""`: delete a leading `"- "` left by a missing field. -/
def stripLeadingDash : List Char → List Char
  | '-' :: ' ' :: t => t
  | l => l

/-- JavaScript `text.split('\n')`. -/
def splitNl : List Char → List (List Char)
  | [] => [[]]
  | '\n' :: t => [] :: splitNl t
  | c :: t =>
    match splitNl t with
    | h :: r => (c :: h) :: r
    | [] => [[c]]

/-- JavaScript `s.split(', ')`. -/
def splitCommaSpace : List Char → List (List Char)
  | [] => [[]]
  | ',' :: ' ' :: t => [] :: splitCommaSpace t
  | c :: t =>
    match splitCommaSpace t with
    | h :: r => (c :: h) :: r
    | [] => [[c]]

/-- `chunks.join(glue)`. -/
def joinWith (glue : List Char) (chunks : List (List Char)) : List Char :=
  List.intercalate glue chunks

/-- The property names a plain object literal inherits from
`Object.prototype`: `dedupe` tracks seen chunks in `var seen = \x7b\x7d`
and tests `!seen[chunk]`, and a read of any of these names returns the
inherited function (or prototype), which is truthy — so such a chunk is
dropped even on its first occurrence. -/
def objProtoKeys : List (List Char) :=
  [("constructor").data, ("hasOwnProperty").data, ("isPrototypeOf").data,
   ("propertyIsEnumerable").data, ("toLocaleString").data, ("toString").data,
   ("valueOf").data, ("__defineGetter__").data, ("__defineSetter__").data,
   ("__lookupGetter__").data, ("__lookupSetter__").data, ("__proto__").data]

/-- The `dedupe` helper of `cleanupRender`: trim each chunk, keep the first
occurrence of each distinct trimmed chunk (tracked in `seen`, whose
prototype-chain reads also swallow chunks named after `Object.prototype`
properties), pass kept chunks through `modifier` — except the literal
value `new york`, which is always kept verbatim and never modified. -/
def dedupeChunks (modifier : List Char → List Char) :
    List (List Char) → List (List Char) → List (List Char)
  | _, [] => []
  | seen, ch :: rest =>
    let chunk := jsTrimL ch
    if toLowerL chunk = ("new york").data then
      chunk :: dedupeChunks modifier (chunk :: seen) rest
    else if chunk ∈ seen ∨ chunk ∈ objProtoKeys then
      dedupeChunks modifier seen rest
    else
      modifier chunk :: dedupeChunks modifier (chunk :: seen) rest

/-- `dedupe(s.split(', '), ', ')` — the inner, comma-segment deduplication. -/
def dedupeInner (s : List Char) : List Char :=
  joinWith [',', ' '] (dedupeChunks id [] (splitCommaSpace s))

/-- `dedupe(text.split('\n'), '\n', s => dedupe(s.split(', '), ', '))` —
the line-and-segment deduplication applied after every substitution. -/
def dedupeText (t : List Char) : List Char :=
  joinWith ['\n'] (dedupeChunks dedupeInner [] (splitNl t))

/-- The ordered substitutions of `cleanupRender` (each applied to the first
match only, exactly as a non-global JavaScript regex). -/
def cleanupSteps : List (List Char → List Char) :=
  [stripTrailingJunk, stripLeadingJunk, stripLeadingDash,
   replaceFirst mCommaWsComma, replaceFirst mHorizCommaHoriz,
   replaceFirst mMultiHoriz, replaceFirst mHorizNl, replaceFirst mNlComma,
   replaceFirst mMultiComma, replaceFirst mCommaNl, replaceFirst mNlHoriz,
   replaceFirst mMultiNl]

/-- `cleanupRender` on character lists: each substitution in order, the
deduplication pass after each one, and a final trim. -/
def cleanupRenderL (t : List Char) : List Char :=
  jsTrimL (cleanupSteps.foldl (fun acc f => dedupeText (f acc)) t)

/-- `cleanupRender(text)` of the source. -/
def cleanupRender (s : String) : String :=
  String.mk (cleanupRenderL s.data)

/-! ## The mustache engine

Values are the tagged union the evaluator dispatches on at runtime
(`isArray` / `typeof` / `isFunction` tests).  `vFn0` models a
zero-argument computed entry invoked by `Context.prototype.lookup`
(`value.call(this.view)`); `vLam` models the two-argument higher-order
section functions invoked by `Writer.prototype.renderSection` with the
raw template slice and a sub-render callback. -/

inductive Value where
  | vNull : Value
  | vBool : Bool → Value
  | vNum : Int → Value
  | vStr : String → Value
  | vArr : List Value → Value
  | vObj : List (String × Value) → Value
  | vFn0 : (Unit → Value) → Value
  | vLam : (String → (String → Except String String) → Except String String) → Value

/-- JavaScript truthiness of a runtime value (`!value`). -/
def jsTruthy : Value → Bool
  | .vNull => false
  | .vBool b => b
  | .vNum n => n != 0
  | .vStr s => s != ""
  | _ => true

/-- JavaScript string coercion of a non-array value. -/
def jsScalarString : Value → String
  | .vNull => ""
  | .vBool b => cond b "true" "false"
  | .vNum n => toString n
  | .vStr s => s
  | .vArr _ => ""
  | .vObj _ => "[object Object]"
  | .vFn0 _ => "function"
  | .vLam _ => "function"

/-- JavaScript string coercion, as used by `buffer += value` and
`String(string)` inside `escapeHtml`: arrays join their elements with
commas (one level — the formatter never stringifies nested arrays). -/
def jsToString : Value → String
  | .vArr xs => String.intercalate "," (xs.map jsScalarString)
  | v => jsScalarString v

/-- The entity map of `escapeHtml`. -/
def escapeHtmlChar (c : Char) : List Char :=
  if c == '&' then ("&amp;").data
  else if c == '<' then ("&lt;").data
  else if c == '>' then ("&gt;").data
  else if c == '"' then ("&quot;").data
  else if c == '\'' then ("&#39;").data
  else if c == '\x60' then ("&#x60;").data
  else if c == '=' then ("&#x3D;").data
  else if c == '/' then ("&#x2F;").data
  else [c]

/-- `escapeHtml(string)`: the default mustache escape function. -/
def escapeHtmlL : List Char → List Char
  | [] => []
  | c :: t => escapeHtmlChar c ++ escapeHtmlL t

/-- String-level `escapeHtml`. -/
def escapeHtml (s : String) : String :=
  String.mk (escapeHtmlL s.data)

/-- A canonical JavaScript array index: `arr[k]` hits an element only when
`k` is the canonical decimal rendering of an index. -/
def arrIdx (s : String) : Option Nat :=
  match s.toNat? with
  | some n => if toString n = s then some n else none
  | none => none

/-- `hasProperty(obj, propName)`: property-in-object, `false` on anything
that is not `typeof 'object'` (arrays carry their indices and `length`).
The `in` operator also reaches the `Object.prototype` methods; the chain
is omitted here — the formatter's views hold only address fields and the
`first` helper, and no template of the data names a prototype method. -/
def hasPropObj : Value → String → Bool
  | .vObj fields, k => (fields.find? (fun p => p.1 == k)).isSome
  | .vArr xs, k =>
    k == "length" ||
      (match arrIdx k with
       | some n => n < xs.length
       | none => false)
  | _, _ => false

/-- `primitiveHasOwnProperty(primitive, propName)`: of the primitives the
formatter stores, only strings have own properties (`length`, indices). -/
def hasPropPrim : Value → String → Bool
  | .vStr s, k =>
    k == "length" ||
      (match arrIdx k with
       | some n => n < s.length
       | none => false)
  | _, _ => false

/-- Member access `value[name]` as the dotted-path walk performs it;
`undefined` is `vNull`. -/
def getMember : Value → String → Value
  | .vObj fields, k => ((fields.find? (fun p => p.1 == k)).map (fun p => p.2)).getD .vNull
  | .vArr xs, k =>
    if k == "length" then .vNum xs.length
    else
      (match arrIdx k with
       | some n => (xs.get? n).getD .vNull
       | none => .vNull)
  | .vStr s, k =>
    if k == "length" then .vNum s.length
    else
      (match arrIdx k with
       | some n =>
         (match s.data.get? n with
          | some c => .vStr (String.mk [c])
          | none => .vNull)
       | none => .vNull)
  | _, _ => .vNull

/-- `name.indexOf('.') > 0`: the name contains a dot and does not start
with one. -/
def isDottedName (s : String) : Bool :=
  match s.data with
  | [] => false
  | c :: rest => c != '.' && rest.contains '.'

/-- JavaScript `s.split(sep)` for a single-character separator. -/
def splitChar (sep : Char) : List Char → List (List Char)
  | [] => [[]]
  | c :: t =>
    if c = sep then [] :: splitChar sep t
    else
      match splitChar sep t with
      | h :: r => (c :: h) :: r
      | [] => [[c]]

/-- The dotted-path descent of `Context.prototype.lookup`: walk the
segments, stopping (without a hit) if an intermediate value is
`null`/`undefined`; on the last segment the hit is decided by
`hasProperty` or `primitiveHasOwnProperty`. -/
def dottedWalk : Value → List String → Bool × Value
  | .vNull, _ => (false, .vNull)
  | v, [] => (false, v)
  | v, [k] => (hasPropObj v k || hasPropPrim v k, getMember v k)
  | v, k :: k2 :: rest => dottedWalk (getMember v k) (k2 :: rest)

/-- The context-chain search of `lookup` (the part inside `while (context)`). -/
def ctxFind (name : String) : List Value → Value
  | [] => .vNull
  | view :: parents =>
    if isDottedName name then
      let r := dottedWalk view ((splitChar '.' name.data).map String.mk)
      if r.1 then r.2 else ctxFind name parents
    else
      if hasPropObj view name then getMember view name else ctxFind name parents

/-- `Context.prototype.lookup`: `.` resolves to the current view (seeded in
the context cache); otherwise the chain is searched; a function-valued
result is invoked with no arguments (the zero-argument computed entries,
modelled by `vFn0`). -/
def ctxLookup (ctx : List Value) (name : String) : Value :=
  let value :=
    if name = "." then (ctx.head?).getD .vNull
    else ctxFind name ctx
  match value with
  | .vFn0 f => f ()
  | v => v

/-! ## The mustache compiler -/

/-- A nested template token (the result of `parseTemplate` followed by
`squashTokens` and `nestTokens`).  Sections carry their children plus the
end position of the opening tag and the start position of the closing tag,
used to slice the raw section body out of the original template. -/
inductive Tok where
  | text : String → Tok
  | vname : String → Tok
  | vamp : String → Tok
  | sect : String → List Tok → Nat → Nat → Tok
  | isect : String → List Tok → Nat → Nat → Tok
  | ptag : String → String → Nat → Bool → Tok
  | dtag : String → Tok
  | bang : String → Tok

/-- A flat token as built by the scanner loop (`[type, value, start, end]`
plus the partial-only extras `indentation`, `tagIndex`, `lineHasNonSpace`). -/
structure RawTok where
  sym : String
  val : String
  tstart : Nat
  tstop : Nat
  ind : String := ""
  tagIdx : Nat := 0
  lineHad : Bool := false

/-- First index of a literal occurrence of `pat` in `l`. -/
def findSub (pat : List Char) : List Char → Option Nat
  | [] => if pat = [] then some 0 else none
  | l@(_ :: t) =>
    if List.isPrefixOf pat l then some 0
    else (findSub pat t).map (fun n => n + 1)

/-- The parser state threaded through the scanner loop of `parseTemplate`.
`tokensRev` is the token buffer, newest first, with `delete`d entries
replaced by `none`; `spaces` holds buffer indices of the whitespace text
tokens of the current line. -/
structure PSt where
  tail : List Char
  pos : Nat
  tokensRev : List (Option RawTok)
  tlen : Nat
  spaces : List Nat
  hasTag : Bool
  nonSpace : Bool
  indent : List Char
  tagIdx : Nat
  lineHad : Bool
  stack : List RawTok
  otag : List Char
  ctag : List Char

/-- Append a token to the buffer. -/
def pushTok (st : PSt) (t : RawTok) : PSt :=
  { st with tokensRev := some t :: st.tokensRev, tlen := st.tlen + 1 }

/-- `stripSpace()`: on a line that held a tag and no non-space text, delete
the whitespace text tokens recorded for the line. -/
def stripSpace (st : PSt) : PSt :=
  if st.hasTag && !st.nonSpace then
    { st with
      tokensRev := st.spaces.foldl (fun tr i => tr.set (st.tlen - 1 - i) none) st.tokensRev,
      spaces := [], hasTag := false, nonSpace := false }
  else
    { st with spaces := [], hasTag := false, nonSpace := false }

/-- Process the literal text before the next opening delimiter: one text
token per character, whitespace accounting, and standalone-line stripping
at each newline. -/
def pushTextChars (st : PSt) (chars : List Char) (start : Nat) : PSt :=
  match chars with
  | [] => st
  | ch :: rest =>
    let st :=
      if isJsSpace ch then
        { st with spaces := st.spaces ++ [st.tlen], indent := st.indent ++ [ch] }
      else
        { st with nonSpace := true, lineHad := true, indent := st.indent ++ [' '] }
    let st := pushTok st { sym := "text", val := String.mk [ch], tstart := start, tstop := start + 1 }
    let st :=
      if ch = '\n' then
        let st := stripSpace st
        { st with indent := [], tagIdx := 0, lineHad := false }
      else st
    pushTextChars st rest (start + 1)

/-- `scanner.scanUntil(re)` for the regexes of the form `\s*pat`
(`closingTagRe`, `closingCurlyRe`, `equalsRe`): skip to the first position
where optional whitespace followed by the literal `pat` matches, or to the
end of input. -/
def scanUntilWsPat (pat : List Char) (st : PSt) : List Char × PSt :=
  match findSub pat st.tail with
  | none => (st.tail, { st with tail := [], pos := st.pos + st.tail.length })
  | some i =>
    let p := i - ((st.tail.take i).reverse.takeWhile isJsSpace).length
    (st.tail.take p, { st with tail := st.tail.drop p, pos := st.pos + p })

/-- `scanner.scan(re)` for the regexes of the form `\s*pat`: match optional
whitespace then the literal `pat` at the current position. -/
def scanWsPat (pat : List Char) (st : PSt) : Bool × PSt :=
  let ws := st.tail.takeWhile isJsSpace
  let rest := st.tail.dropWhile isJsSpace
  if List.isPrefixOf pat rest then
    (true, { st with tail := rest.drop pat.length, pos := st.pos + ws.length + pat.length })
  else (false, st)

/-- `/\s+/`-split: pieces between maximal whitespace runs.  The flag says
whether the scan is inside a run (a run contributes one boundary at its
first character and swallows the rest). -/
def splitWsGo : Bool → List Char → List (List Char)
  | _, [] => [[]]
  | inRun, c :: t =>
    if isJsSpace c then
      if inRun then splitWsGo true t else [] :: splitWsGo true t
    else
      match splitWsGo false t with
      | h :: r => (c :: h) :: r
      | [] => [[c]]

/-- `value.split(/\s+/)`, as `compileTags` uses on the body of a
`{{=…=}}` tag. -/
def splitWsRuns (l : List Char) : List (List Char) :=
  splitWsGo false l

/-- `compileTags`: split the delimiter specification on whitespace and
require exactly two pieces. -/
def compileTags (value : String) : Except String (List Char × List Char) :=
  match (splitWsRuns value.data).take 2 with
  | [a, b] => pure (a, b)
  | _ => Except.error ("Invalid tags: " ++ value)

/-- The default mustache delimiters. -/
def defaultTags : List Char × List Char :=
  (['\x7b', '\x7b'], ['\x7d', '\x7d'])

/-- One iteration body plus recursion of the scanner loop of
`parseTemplate` (fuel-bounded; each iteration consumes input). -/
def parseLoop : Nat → PSt → Except String PSt
  | 0, _ => Except.error "parse: out of fuel"
  | fuel + 1, st =>
    if st.tail.isEmpty then pure st
    else
      let start0 := st.pos
      let idx := (findSub st.otag st.tail).getD st.tail.length
      let textVal := st.tail.take idx
      let st := { st with tail := st.tail.drop idx, pos := st.pos + idx }
      let st := pushTextChars st textVal start0
      let tagStart := st.pos
      if !(List.isPrefixOf st.otag st.tail) then pure st
      else
        let afterOpen := st.tail.drop st.otag.length
        let wsLen := (afterOpen.takeWhile isJsSpace).length
        let st := { st with
          tail := afterOpen.dropWhile isJsSpace,
          pos := st.pos + st.otag.length + wsLen, hasTag := true }
        let tyst : String × PSt :=
          match st.tail with
          | c :: t =>
            if c == '#' || c == '^' || c == '/' || c == '>' || c == '\x7b' ||
               c == '&' || c == '=' || c == '!' then
              (String.mk [c], { st with tail := t, pos := st.pos + 1 })
            else ("name", st)
          | [] => ("name", st)
        let ty := tyst.1
        let st := tyst.2
        let st := { st with
          pos := st.pos + (st.tail.takeWhile isJsSpace).length,
          tail := st.tail.dropWhile isJsSpace }
        let vst : String × PSt :=
          if ty = "=" then
            let (v, st) := scanUntilWsPat ['='] st
            let (_, st) := scanWsPat ['='] st
            let (_, st) := scanUntilWsPat st.ctag st
            (String.mk v, st)
          else if ty = "\x7b" then
            let (v, st) := scanUntilWsPat ('\x7d' :: st.ctag) st
            let (_, st) := scanWsPat ['\x7d'] st
            let (_, st) := scanUntilWsPat st.ctag st
            (String.mk v, st)
          else
            let (v, st) := scanUntilWsPat st.ctag st
            (String.mk v, st)
        let value := vst.1
        let st := vst.2
        let ty := if ty = "\x7b" then "&" else ty
        let cst := scanWsPat st.ctag st
        if !cst.1 then Except.error ("Unclosed tag at " ++ toString st.pos)
        else
          let st := cst.2
          let token : RawTok :=
            if ty = ">" then
              { sym := ty, val := value, tstart := tagStart, tstop := st.pos,
                ind := String.mk st.indent, tagIdx := st.tagIdx, lineHad := st.lineHad }
            else
              { sym := ty, val := value, tstart := tagStart, tstop := st.pos }
          let st := { st with tagIdx := st.tagIdx + 1 }
          let st := pushTok st token
          if ty = "#" || ty = "^" then
            parseLoop fuel { st with stack := token :: st.stack }
          else if ty = "/" then
            match st.stack with
            | [] => Except.error ("Unopened section \"" ++ value ++ "\" at " ++ toString tagStart)
            | openSec :: rest =>
              if openSec.val ≠ value then
                Except.error ("Unclosed section \"" ++ openSec.val ++ "\" at " ++ toString tagStart)
              else parseLoop fuel { st with stack := rest }
          else if ty = "name" || ty = "&" then
            parseLoop fuel { st with nonSpace := true }
          else if ty = "=" then
            match compileTags value with
            | .error e => Except.error e
            | .ok (o, c) => parseLoop fuel { st with otag := o, ctag := c }
          else
            parseLoop fuel st

/-- `squashTokens`: drop deleted entries and merge adjacent text tokens
(deleted entries do not break adjacency, as in the source loop). -/
def squashTokens : List (Option RawTok) → List RawTok
  | [] => []
  | none :: rest => squashTokens rest
  | some t :: rest =>
    match squashTokens rest with
    | t2 :: r2 =>
      if t.sym = "text" ∧ t2.sym = "text" then
        { t with val := t.val ++ t2.val, tstop := t2.tstop } :: r2
      else t :: t2 :: r2
    | [] => [t]

/-- Turn a flat validated token into a leaf of the nested tree. -/
def leafTok (t : RawTok) : Tok :=
  if t.sym = "text" then .text t.val
  else if t.sym = "name" then .vname t.val
  else if t.sym = "&" then .vamp t.val
  else if t.sym = ">" then .ptag t.val t.ind t.tagIdx t.lineHad
  else if t.sym = "=" then .dtag t.val
  else .bang t.val

/-- `nestTokens`: collect tokens into their enclosing sections, recording
each section's close-tag start position. -/
def nestGo : List RawTok → List (RawTok × List Tok) → List Tok → List Tok
  | [], _, acc => acc.reverse
  | t :: rest, stack, acc =>
    if t.sym = "#" ∨ t.sym = "^" then
      nestGo rest ((t, acc) :: stack) []
    else if t.sym = "/" then
      match stack with
      | (sec, parentAcc) :: stackRest =>
        let built :=
          if sec.sym = "#" then Tok.sect sec.val acc.reverse sec.tstop t.tstart
          else Tok.isect sec.val acc.reverse sec.tstop t.tstart
        nestGo rest stackRest (built :: parentAcc)
      | [] => nestGo rest [] acc
    else
      nestGo rest stack (leafTok t :: acc)

/-- `nestTokens(squashTokens(tokens))`. -/
def nestTokens (l : List RawTok) : List Tok :=
  nestGo l [] []

/-- `parseTemplate(template, tags)`: the full compiler, returning the
nested token tree or a compile error. -/
def parseTemplate (template : String) (tags : List Char × List Char) :
    Except String (List Tok) :=
  if template = "" then pure []
  else
    match parseLoop (template.data.length + 1)
        { tail := template.data, pos := 0, tokensRev := [], tlen := 0, spaces := [],
          hasTag := false, nonSpace := false, indent := [], tagIdx := 0,
          lineHad := false, stack := [], otag := tags.1, ctag := tags.2 } with
    | .error e => Except.error e
    | .ok st =>
      let st := stripSpace st
      match st.stack with
      | openSec :: _ =>
        Except.error ("Unclosed section \"" ++ openSec.val ++ "\" at " ++ toString st.pos)
      | [] => pure (nestTokens (squashTokens st.tokensRev.reverse))

/-! ## The mustache renderer -/

/-- `originalTemplate.slice(a, b)`. -/
def strSlice (s : String) (a b : Nat) : String :=
  String.mk ((s.data.drop a).take (b - a))

/-- Re-indentation of a partial (`indentPartial`): prefix every line except
an empty one — and except the first when the host line had content — with
the space-and-tab part of the indentation. -/
def indentLines (value : String) (ind : String) (lineHad : Bool) : String :=
  let filtered := ind.data.filter isHoriz
  let parts := splitNl value.data
  String.mk (joinWith ['\n']
    (parts.enum.map (fun p =>
      if p.2 ≠ [] ∧ (p.1 > 0 ∨ !lineHad) then filtered ++ p.2 else p.2)))

/-- A pending unit of rendering work: one token, a token list, or a
sub-template to parse and render (`subRender`). -/
inductive RCmd where
  | one : Tok → RCmd
  | many : List Tok → RCmd
  | sub : String → RCmd

/-- `Writer.prototype.renderTokens` together with `renderSection`,
`renderInverted`, `renderPartial` and the `subRender` closure, merged
into one function so that the recursion is structural on `fuel` (the
evaluator can re-enter itself through higher-order sections and partials,
which re-parse and render arbitrary text; `fuel` bounds that recursion
depth).  `.one` dispatches on the token kind exactly as the evaluator's
symbol switch does; an array-valued section folds over the elements,
rendering the children with each element pushed and concatenating the
buffers; `.sub` is `subRender`, whose rendered text becomes the new
`originalTemplate`. -/
def renderGo : Nat → RCmd → List Value → List (String × String) → String →
    Except String String
  | 0, _, _, _, _ => Except.error "render: out of fuel"
  | fuel + 1, cmd, ctx, partials, tpl =>
    match cmd with
    | .one tok =>
      (match tok with
       | .text s => pure s
       | .vname n =>
         (match ctxLookup ctx n with
          | .vNull => pure ""
          | .vNum k => pure (toString k)
          | v => pure (escapeHtml (jsToString v)))
       | .vamp n =>
         (match ctxLookup ctx n with
          | .vNull => pure ""
          | v => pure (jsToString v))
       | .sect n children a b =>
         let v := ctxLookup ctx n
         if !jsTruthy v then pure ""
         else
           (match v with
            | .vArr xs =>
              xs.foldlM (fun buf el => do
                let r ← renderGo fuel (.many children) (el :: ctx) partials tpl
                pure (buf ++ r)) ""
            | .vObj fields => renderGo fuel (.many children) (Value.vObj fields :: ctx) partials tpl
            | .vStr s => renderGo fuel (.many children) (Value.vStr s :: ctx) partials tpl
            | .vNum k => renderGo fuel (.many children) (Value.vNum k :: ctx) partials tpl
            | .vLam f => f (strSlice tpl a b) (fun t => renderGo fuel (.sub t) ctx partials tpl)
            | .vFn0 f =>
              (match f () with
               | .vNull => pure ""
               | v2 => pure (jsToString v2))
            | _ => renderGo fuel (.many children) ctx partials tpl)
       | .isect n children _ _ =>
         let v := ctxLookup ctx n
         if !jsTruthy v || (match v with | .vArr [] => true | _ => false) then
           renderGo fuel (.many children) ctx partials tpl
         else pure ""
       | .ptag name ind tagIdx lineHad =>
         (match partials.find? (fun p => p.1 == name) with
          | none => pure ""
          | some pv =>
            let indented :=
              if tagIdx = 0 ∧ ind ≠ "" then indentLines pv.2 ind lineHad else pv.2
            renderGo fuel (.sub indented) ctx partials tpl)
       | .dtag _ => pure ""
       | .bang _ => pure "")
    | .many [] => pure ""
    | .many (t :: ts) => do
      let r ← renderGo fuel (.one t) ctx partials tpl
      let rest ← renderGo fuel (.many ts) ctx partials tpl
      pure (r ++ rest)
    | .sub t =>
      (match parseTemplate t defaultTags with
       | .error e => Except.error e
       | .ok toks => renderGo fuel (.many toks) ctx partials t)

/-- Rendering of a single token (`renderTokens` at one token). -/
def renderTok (fuel : Nat) (tok : Tok) (ctx : List Value)
    (partials : List (String × String)) (tpl : String) : Except String String :=
  renderGo fuel (.one tok) ctx partials tpl

/-- Rendering of a token list (`renderTokens`). -/
def renderToks (fuel : Nat) (toks : List Tok) (ctx : List Value)
    (partials : List (String × String)) (tpl : String) : Except String String :=
  renderGo fuel (.many toks) ctx partials tpl

/-- `mustache.render(template, view)` as the formatter calls it: no
partials, default tags, default escape. -/
def mustacheRender (fuel : Nat) (template : String) (view : Value) :
    Except String String :=
  match parseTemplate template defaultTags with
  | .error e => Except.error e
  | .ok toks => renderToks fuel toks [view] [] template

/-! ## The first-available selector -/

/-- JavaScript `rendered.split(/\s*\|\|\s*/)`: scan for the leftmost `||`;
the separator absorbs the maximal whitespace run on either side (the
greedy `\s*` of the regex), so the piece before it loses its trailing
whitespace (dropped from the reversed accumulator) and the remainder its
leading whitespace (skipped while the flag is set). -/
def splitBarsGo : Bool → List Char → List Char → List (List Char)
  | _, acc, [] => [acc.reverse]
  | skip, acc, c :: t =>
    match t with
    | c2 :: t2 =>
      if c = '|' ∧ c2 = '|' then
        (acc.dropWhile isJsSpace).reverse :: splitBarsGo true [] t2
      else if skip && isJsSpace c then splitBarsGo true acc (c2 :: t2)
      else splitBarsGo false (c :: acc) (c2 :: t2)
    | [] =>
      if skip && isJsSpace c then splitBarsGo true acc []
      else splitBarsGo false (c :: acc) []

/-- String-level `s.split(/\s*\|\|\s*/)`. -/
def splitBars (s : String) : List String :=
  (splitBarsGo false [] s.data).map String.mk

/-- The `first` helper installed by `renderTemplate`: render the raw
section body once, split the rendering on the `||` separator, discard
empty alternatives and return the first remaining one (or the empty
string). -/
def firstHelper (text : String) (render : String → Except String String) :
    Except String String := do
  let rendered ← render text
  let possibilities := (splitBars rendered).filter (fun b => b.length > 0)
  pure (match possibilities with
        | p :: _ => p
        | [] => "")

/-- Removal of a trailing whitespace run (what the `\s*` left of `\|\|`
takes from the piece before a separator). -/
def dropTrailingWs (l : List Char) : List Char :=
  (l.reverse.dropWhile isJsSpace).reverse

/-- Whitespace-trimming on both sides (what an alternative between two
separators keeps of its rendering). -/
def jsTrimBothWs (l : List Char) : List Char :=
  dropTrailingWs (l.dropWhile isJsSpace)

/-! ## Address input objects

A JavaScript object with string values, as an association list in
insertion order: property writes update in place, new properties append. -/

/-- The field map manipulated by the normalisation pipeline. -/
abbrev Obj := List (String × String)

/-- `o[k]`, `undefined` as `none`. -/
def jsGet (o : Obj) (k : String) : Option String :=
  (o.find? (fun p => p.1 == k)).map (fun p => p.2)

/-- Truthiness of `o[k]` (present and non-empty). -/
def truthyAt (o : Obj) (k : String) : Bool :=
  match jsGet o k with
  | some v => v ≠ ""
  | none => false

/-- `o[k] = v`. -/
def objSet (o : Obj) (k v : String) : Obj :=
  if (o.find? (fun p => p.1 == k)).isSome then
    o.map (fun p => if p.1 == k then (k, v) else p)
  else o ++ [(k, v)]

/-- `delete o[k]`. -/
def objDelete (o : Obj) (k : String) : Obj :=
  o.filter (fun p => p.1 != k)

/-- `Object.keys(o)`. -/
def objKeys (o : Obj) : List String :=
  o.map (fun p => p.1)

/-! ## The normaliser's static tables (from the source, in source order) -/

/-- The `aliases` table: input key aliases and their canonical names. -/
def aliases : List (String × String) :=
  [("street_number", "house_number"),
   ("housenumber", "house_number"),
   ("house_number", "house_number"),
   ("building", "house"),
   ("floor", "floor"),
   ("door", "door"),
   ("infos", "infos"),
   ("addition", "addition"),
   ("public_building", "house"),
   ("isolated_dwelling", "house"),
   ("farmland", "house"),
   ("allotments", "house"),
   ("house", "house"),
   ("footway", "road"),
   ("street", "road"),
   ("street_name", "road"),
   ("residential", "road"),
   ("path", "road"),
   ("pedestrian", "road"),
   ("road_reference", "road"),
   ("road_reference_intl", "road"),
   ("square", "road"),
   ("road", "road"),
   ("farmland", "place"),
   ("allotments", "place"),
   ("place", "place"),
   ("locality", "hamlet"),
   ("croft", "hamlet"),
   ("hamlet", "hamlet"),
   ("village", "village"),
   ("suburb", "neighbourhood"),
   ("city_district", "neighbourhood"),
   ("commune", "neighbourhood"),
   ("district", "neighbourhood"),
   ("quarter", "neighbourhood"),
   ("borough", "neighbourhood"),
   ("city_block", "neighbourhood"),
   ("residential", "neighbourhood"),
   ("commercial", "neighbourhood"),
   ("industrial", "neighbourhood"),
   ("houses", "neighbourhood"),
   ("subdistrict", "neighbourhood"),
   ("subdivision", "neighbourhood"),
   ("ward", "neighbourhood"),
   ("neighbourhood", "neighbourhood"),
   ("postal_city", "postal_city"),
   ("town", "city"),
   ("township", "city"),
   ("city", "city"),
   ("local_administrative_area", "municipality"),
   ("subcounty", "municipality"),
   ("municipality", "municipality"),
   ("county_code", "county"),
   ("department", "county"),
   ("county", "county"),
   ("state_district", "state_district"),
   ("postal_code", "postcode"),
   ("partial_postcode", "postcode"),
   ("postcode", "postcode"),
   ("province", "state"),
   ("state_code", "state"),
   ("territory", "state"),
   ("state", "state"),
   ("oblast", "region"),
   ("raion", "region"),
   ("region", "region"),
   ("island", "island"),
   ("archipelago", "archipelago"),
   ("country_name", "country"),
   ("country", "country"),
   ("country_code", "country_code"),
   ("continent", "continent")]

/-- `knownComponents = aliases.map(a => a.alias)`. -/
def knownComponents : List String :=
  aliases.map (fun a => a.1)

/-- `VALID_REPLACEMENT_COMPONENTS`. -/
def validReplacementComponents : List String :=
  ["state"]

/-- `SMALL_DISTRICT_COUNTRIES` (its key set). -/
def smallDistrictCountries : List String :=
  ["BR", "CR", "ES", "NI", "PY", "RO", "TG", "TM", "XK"]

/-! ## The environment: external data tables and the dynamic-regex oracle

The per-country data tables are external assets; the pipeline is
parameterised over them.  Replacement rules from those tables instantiate
`new RegExp(pattern)` at run time; building a full JavaScript regex engine
is out of scope, so an `Env` carries the test/replace semantics of those
data-supplied patterns as functions (the concrete environments used below
have empty rule tables, so the oracle is never consulted there). -/

/-- A subdivision name: a plain string or an object of per-locale
variants (of which only the values are compared). -/
inductive NameSpec where
  | single : String → NameSpec
  | variants : List String → NameSpec

/-- One entry of a state/county code table. -/
structure SubdivEntry where
  name : NameSpec
  key : String

/-- One component's abbreviation rules for a language. -/
structure AbbrevEntry where
  component : String
  replacements : List (String × String)

/-- A country template entry (`CountryTemplate`). -/
structure TemplateEntry where
  address_template : Option String := none
  fallback_template : Option String := none
  use_country : Option String := none
  change_country : Option String := none
  add_component : Option String := none
  replace : List (String × String) := []
  postformat_replace : List (String × String) := []

/-- The external data consumed by the pipeline, plus the regex oracle for
data-supplied patterns: `regexTest p s` models `s.match(new RegExp(p))`
being truthy and `regexReplace p d s` models `s.replace(new RegExp(p), d)`. -/
structure Env where
  templates : List (String × TemplateEntry)
  countryNames : List (String × String) := []
  stateCodes : List (String × List SubdivEntry) := []
  countyCodes : List (String × List SubdivEntry) := []
  country2lang : List (String × List String) := []
  abbreviations : List (String × List AbbrevEntry) := []
  regexTest : String → String → Bool := fun _ _ => false
  regexReplace : String → String → String → String := fun _ _ s => s

/-- Table lookup by an optional key (`table[k]` with `k` possibly
`undefined`). -/
def lookupTable {α : Type} (t : List (String × α)) (k : Option String) : Option α :=
  match k with
  | none => none
  | some s => (t.find? (fun p => p.1 == s)).map (fun p => p.2)

/-! ## The normaliser -/

/-- One step of `key.replace(/([A-Z])/g, '_$1').toLowerCase()`. -/
def snakeChar (c : Char) : List Char :=
  if c.isUpper then ['_', c.toLower] else [c.toLower]

/-- `key.replace(/([A-Z])/g, '_$1').toLowerCase()`. -/
def toSnakeCase (s : String) : String :=
  String.mk (s.data.foldr (fun c acc => snakeChar c ++ acc) [])

/-- `normalizeComponentKeys(input)`: rewrite camel-case keys whose
snake-case form is a known component and not already (truthily) present;
the original key is deleted either way once the condition holds. -/
def normalizeComponentKeys (input : Obj) : Obj :=
  (objKeys input).foldl
    (fun inp key =>
      let snaked := toSnakeCase key
      if knownComponents.contains snaked ∧ ¬ truthyAt inp snaked then
        let inp :=
          if truthyAt inp key then objSet inp snaked ((jsGet inp key).getD "") else inp
        objDelete inp key
      else inp)
    input

/-- The tailored alias list of `applyAliases`: outside the small-district
countries, `district` aliases to `state_district` instead of `suburb`
(the replacement pair is pushed at the end of the list). -/
def tailoredAliasesFor (input : Obj) : List (String × String) :=
  if smallDistrictCountries.contains ((jsGet input "country_code").getD "") then aliases
  else (aliases.filter (fun a => a.1 ≠ "district")) ++ [("district", "state_district")]

/-- `applyAliases(input)`: copy each aliased input key to its canonical
name unless the canonical field is already (truthily) present. -/
def applyAliases (input : Obj) : Obj :=
  let tailored := tailoredAliasesFor input
  (objKeys input).foldl
    (fun inp key =>
      match tailored.find? (fun a => a.1 == key) with
      | some al =>
        if ¬ truthyAt inp al.2 then objSet inp al.2 ((jsGet inp al.1).getD "") else inp
      | none => inp)
    input

/-- Case-insensitive match of a subdivision name entry against a state or
county value. -/
def nameSpecMatches (spec : NameSpec) (needle : String) : Bool :=
  match spec with
  | .single s => toUpperL s.data = toUpperL needle.data
  | .variants vs => vs.any (fun v => toUpperL v.data = toUpperL needle.data)

/-- `getStateCode(state, countryCode)`. -/
def getStateCode (env : Env) (state : String) (countryCode : Option String) :
    Option String :=
  match lookupTable env.stateCodes countryCode with
  | none => none
  | some entries => (entries.find? (fun e => nameSpecMatches e.name state)).map (fun e => e.key)

/-- `getCountyCode(county, countryCode)`. -/
def getCountyCode (env : Env) (county : String) (countryCode : Option String) :
    Option String :=
  match lookupTable env.countyCodes countryCode with
  | none => none
  | some entries => (entries.find? (fun e => nameSpecMatches e.name county)).map (fun e => e.key)

/-- JavaScript `\w`. -/
def isWordChar (c : Char) : Bool :=
  ('a' ≤ c && c ≤ 'z') || ('A' ≤ c && c ≤ 'Z') || ('0' ≤ c && c ≤ '9') || c == '_'

/-- Replace the first literal occurrence of `pat` (non-empty) in a list. -/
def replaceFirstLit (pat repl : List Char) : List Char → List Char
  | [] => []
  | c :: t =>
    if List.isPrefixOf pat (c :: t) then repl ++ (c :: t).drop pat.length
    else c :: replaceFirstLit pat repl t

/-- The `change_country` rewrite of `determineCountryCode`: the first
`$field` reference (the regex `/\$(\w*)/`) is replaced by the field's
value when it is truthy, by the empty string otherwise. -/
def changeCountrySubst (input : Obj) (newCountry : String) : String :=
  match findSub ['$'] newCountry.data with
  | none => newCountry
  | some i =>
    let field := String.mk (((newCountry.data.drop i).drop 1).takeWhile isWordChar)
    let pat := '$' :: field.data
    match jsGet input field with
    | some v =>
      if v ≠ "" then String.mk (replaceFirstLit pat v.data newCountry.data)
      else String.mk (replaceFirstLit pat [] newCountry.data)
    | none => String.mk (replaceFirstLit pat [] newCountry.data)

/-- Substring search (for the case-insensitive `/sint maarten/` and
`/aruba/` state tests). -/
def containsSub (pat l : List Char) : Bool :=
  (findSub pat l).isSome

/-- The `change_country` application of the `use_country` branch
(`input.country = newCountry` after the `$field` substitution). -/
def applyChangeCountry (e : TemplateEntry) (input : Obj) : Obj :=
  match e.change_country with
  | some newCountry => objSet input "country" (changeCountrySubst input newCountry)
  | none => input

/-- The `add_component` application of the `use_country` branch: only a
`field=value` directive whose field is in `VALID_REPLACEMENT_COMPONENTS`
is written. -/
def applyAddComponent (e : TemplateEntry) (input : Obj) : Obj :=
  match e.add_component with
  | some ac =>
    if ac.data.contains '=' then
      match (splitChar '=' ac.data).map String.mk with
      | p0 :: p1 :: _ =>
        if validReplacementComponents.contains p0 then objSet input p0 p1 else input
      | _ => input
    else input
  | none => input

/-- The `countryCode === 'NL' && input.state` special case of
`determineCountryCode`: a truthy `state` naming Curaçao, Sint Maarten or
Aruba (the latter two case-insensitively) overrides the code with
`CW`/`SX`/`AW` and rewrites `country` from the state. -/
def nlStateOverride (cc3 : String) (input : Obj) : String × Obj :=
  if cc3 = "NL" ∧ truthyAt input "state" then
    let st := (jsGet input "state").getD ""
    if st = "Curaçao" then ("CW", objSet input "country" "Curaçao")
    else if containsSub ("sint maarten").data (toLowerL st.data) then
      ("SX", objSet input "country" "Sint Maarten")
    else if containsSub ("aruba").data (toLowerL st.data) then
      ("AW", objSet input "country" "Aruba")
    else (cc3, input)
  else (cc3, input)

/-- `determineCountryCode(input, fallbackCountryCode)`. -/
def determineCountryCode (env : Env) (input : Obj)
    (fallbackCountryCode : Option String) : Obj :=
  let ccA : Option String :=
    (jsGet input "country_code").map (fun v => if v = "" then "" else String.mk (toUpperL v.data))
  let fbTruthy : Bool :=
    match fallbackCountryCode with
    | some f => f ≠ ""
    | none => false
  let ccB : Option String :=
    if (lookupTable env.templates ccA).isNone ∧ fbTruthy then
      fallbackCountryCode.map (fun f => String.mk (toUpperL f.data))
    else ccA
  match ccB with
  | none => input
  | some cc0 =>
    if cc0.length ≠ 2 then input
    else
      let cc1 := if cc0 = "UK" then "GB" else cc0
      let step :=
        match lookupTable env.templates (some cc1) with
        | some entry =>
          match entry.use_country with
          | some target =>
            (String.mk (toUpperL target.data),
              applyAddComponent entry (applyChangeCountry entry input))
          | none => (cc1, input)
        | none => (cc1, input)
      let cc3 := step.1
      let input := step.2
      let step2 := nlStateOverride cc3 input
      objSet step2.2 "country_code" step2.1

/-- The options object of `format`, with the source's defaults. -/
structure FmtOptions where
  abbreviate : Bool := false
  appendCountry : Bool := false
  cleanupPostcode : Option Bool := some true
  countryCode : Option String := none
  fallbackCountryCode : Option String := none
  output : Option String := some "string"

/-- The `/^washington,? d\.?c\.?/i` test of the state special case. -/
def isWashingtonDC (s : String) : Bool :=
  let l := toLowerL s.data
  if List.isPrefixOf ("washington").data l then
    let r := l.drop 10
    let r := match r with
             | ',' :: t => t
             | _ => r
    match r with
    | ' ' :: 'd' :: r2 =>
      let r3 := match r2 with
                | '.' :: t => t
                | _ => r2
      (match r3 with
       | 'c' :: _ => true
       | _ => false)
    | _ => false
  else false

/-- The `/\d+;\d+/` numeric-range test on a postcode. -/
def hasNumRange : List Char → Bool
  | a :: b :: c :: t => (a.isDigit && b == ';' && c.isDigit) || hasNumRange (b :: c :: t)
  | _ => false

/-- The `/^(\d{5}),\d{5}/` capture: the first code of a comma-joined
multi-postcode value. -/
def multiCodeFirst (pc : String) : Option String :=
  match pc.data with
  | a :: b :: c :: d :: e :: ',' :: f :: g :: h :: i :: j :: _ =>
    if [a, b, c, d, e, f, g, h, i, j].all Char.isDigit then
      some (String.mk [a, b, c, d, e])
    else none
  | _ => none

/-- The `/^https?:\/\//i` test of the URL cleanup. -/
def isUrlString (v : String) : Bool :=
  List.isPrefixOf ("http://").data (toLowerL v.data) ||
    List.isPrefixOf ("https://").data (toLowerL v.data)

/-- The replacement loop of `cleanupInput`: every rule against every key
of the initial snapshot; a rule whose pattern starts with `key=` is scoped
to that key (with the scope prefix stripped from the pattern), any other
rule is applied to every field. -/
def applyReplacements (env : Env) (inputKeys : List String)
    (replacements : List (String × String)) (input : Obj) : Obj :=
  if replacements ≠ [] then
    inputKeys.foldl
      (fun inp key =>
        replacements.foldl
          (fun inp repl =>
            if List.isPrefixOf (key ++ "=").data repl.1.data then
              let val := String.mk (repl.1.data.drop (key.length + 1))
              match jsGet inp key with
              | some v =>
                if env.regexTest val v then objSet inp key (env.regexReplace val repl.2 v)
                else inp
              | none => inp
            else
              match jsGet inp key with
              | some v => objSet inp key (env.regexReplace repl.1 repl.2 v)
              | none => inp)
          inp)
      input
  else input

/-- The `state_code` assignment from the subdivision table
(`input.state_code = getStateCode(input.state, input.country_code)`,
written only when a code is found). -/
def stateCodeSet (env : Env) (input : Obj) : Obj :=
  match getStateCode env ((jsGet input "state").getD "") (jsGet input "country_code") with
  | some code => objSet input "state_code" code
  | none => input

/-- The `state_code` derivation of `cleanupInput`, with the
Washington-D.C. special case. -/
def stateCodeStage (env : Env) (input : Obj) : Obj :=
  if ¬ truthyAt input "state_code" ∧ truthyAt input "state" then
    if isWashingtonDC ((jsGet input "state").getD "") then
      objSet (objSet (objSet (stateCodeSet env input) "state_code" "DC") "state"
        "District of Columbia") "city" "Washington"
    else stateCodeSet env input
  else input

/-- The `county_code` derivation of `cleanupInput`. -/
def countyCodeStage (env : Env) (input : Obj) : Obj :=
  if ¬ truthyAt input "county_code" ∧ truthyAt input "county" then
    match getCountyCode env ((jsGet input "county").getD "") (jsGet input "country_code") with
    | some code => objSet input "county_code" code
    | none => input
  else input

/-- The synthetic-`attention` step of `cleanupInput`: the keys of the
initial snapshot that are not known components, their current values
joined with `", "`. -/
def attentionStage (inputKeys : List String) (input : Obj) : Obj :=
  if inputKeys.filter (fun k => ¬ knownComponents.contains k) ≠ [] then
    objSet input "attention"
      (String.intercalate ", "
        ((inputKeys.filter (fun k => ¬ knownComponents.contains k)).map
          (fun c => (jsGet input c).getD "")))
  else input

/-- The postcode normalisation of `cleanupInput`. -/
def postcodeStage (opts : FmtOptions) (input : Obj) : Obj :=
  match jsGet input "postcode" with
  | some pc =>
    if pc ≠ "" ∧ opts.cleanupPostcode ≠ some false then
      if pc.length > 20 then objDelete input "postcode"
      else if hasNumRange pc.data then objDelete input "postcode"
      else
        match multiCodeFirst pc with
        | some first5 => objSet input "postcode" first5
        | none => input
    else input
  | none => input

/-- The abbreviation pass of `cleanupInput` (per-language whole-word
rules keyed by the country's languages). -/
def abbreviationStage (env : Env) (opts : FmtOptions) (input : Obj) : Obj :=
  if opts.abbreviate ∧ truthyAt input "country_code" then
    match lookupTable env.country2lang (jsGet input "country_code") with
    | some langs =>
      langs.foldl
        (fun inp lang =>
          match lookupTable env.abbreviations (some lang) with
          | some abbrevs =>
            abbrevs.foldl
              (fun inp ab =>
                if truthyAt inp ab.component then
                  ab.replacements.foldl
                    (fun inp r =>
                      match jsGet inp ab.component with
                      | some v =>
                        objSet inp ab.component
                          (env.regexReplace ("\\b" ++ r.1 ++ "\\b") r.2 v)
                      | none => inp)
                    inp
                else inp)
              inp
          | none => inp)
        input
    | none => input
  else input

/-- The naive URL cleanup of `cleanupInput`: drop any field whose value
matches `/^https?:\/\//i` (keys re-read after the earlier stages). -/
def urlStage (input : Obj) : Obj :=
  (objKeys input).foldl
    (fun inp k =>
      match jsGet inp k with
      | some v => if isUrlString v then objDelete inp k else inp
      | none => inp)
    input

/-- `cleanupInput(input, replacements, options)`: the stages above, in
source order, over the initial key snapshot.  (The leading
`Number.isInteger(input.country)` swap is a no-op on the string-valued
fields of this model and is omitted.) -/
def cleanupInput (env : Env) (input : Obj) (replacements : List (String × String))
    (opts : FmtOptions) : Obj :=
  urlStage
    (abbreviationStage env opts
      (postcodeStage opts
        (attentionStage (objKeys input)
          (countyCodeStage env
            (stateCodeStage env
              (applyReplacements env (objKeys input) replacements input))))))

/-- The entry under the `default` key of the templates table. -/
def defaultEntry (env : Env) : TemplateEntry :=
  (lookupTable env.templates (some "default")).getD {}

/-- `findTemplate(input)`. -/
def findTemplate (env : Env) (input : Obj) : TemplateEntry :=
  match lookupTable env.templates (jsGet input "country_code") with
  | some t => t
  | none => defaultEntry env

/-- JavaScript `a || b` on the optional template strings (an empty or
missing template falls through to the default's). -/
def jsOrTemplate (a b : Option String) : Option String :=
  match a with
  | some s => if s ≠ "" then some s else b
  | none => b

/-- `chooseTemplateText(template, input)`: the fallback body is selected
exactly when all of the required fields (`road`, `postcode`) are missing. -/
def chooseTemplateText (env : Env) (template : TemplateEntry) (input : Obj) :
    Option String :=
  let selected := jsOrTemplate template.address_template (defaultEntry env).address_template
  let required := ["road", "postcode"]
  let missingValuesCnt := ((required.map (fun r => truthyAt input r)).filter (fun s => !s)).length
  if missingValuesCnt = 2 then
    jsOrTemplate template.fallback_template (defaultEntry env).fallback_template
  else selected

/-- The view passed to mustache: the normalised input fields plus the
`first` helper (a zero-argument computed entry returning the two-argument
selector). -/
def objSetV (o : List (String × Value)) (k : String) (v : Value) :
    List (String × Value) :=
  if (o.find? (fun p => p.1 == k)).isSome then
    o.map (fun p => if p.1 == k then (k, v) else p)
  else o ++ [(k, v)]

/-- `Object.assign({}, input, { first: … })`. -/
def templateInputOf (input : Obj) : Value :=
  Value.vObj
    (objSetV (input.map (fun p => (p.1, Value.vStr p.2))) "first"
      (Value.vFn0 (fun _ => Value.vLam firstHelper)))

/-- The `postformat_replace` cascade of the selected template. -/
def applyPostformat (env : Env) (template : TemplateEntry) (s : String) : String :=
  template.postformat_replace.foldl (fun r p => env.regexReplace p.1 p.2 r) s

/-- The last-resort fallback text: all non-empty field values joined with
`", "` (`Object.keys(input).map(i => input[i]).filter(s => !!s).join(', ')`). -/
def fallbackJoin (input : Obj) : String :=
  String.mk
    (joinWith (", ").data ((input.map (fun p => p.2.data)).filter (fun s => s ≠ [])))

/-- A character that no substitution of the cleanup pass ever removes:
not whitespace, not a comma, not a closing brace, not a dash (letters and
digits qualify). -/
def keptChar (c : Char) : Bool :=
  !isJsSpace c && c != ',' && c != '}' && c != '-'

/-- The text contains at least one such character. -/
def hasKept (l : List Char) : Prop :=
  ∃ c, c ∈ l ∧ keptChar c = true

/-- A character no substitution removes that also occurs in no
`Object.prototype` property name: a chunk containing it can never be
swallowed by the `seen`-object reads of `dedupe` (digits qualify). -/
def robustChar (c : Char) : Bool :=
  keptChar c && !(objProtoKeys.any (fun k => k.contains c))

/-- Cleanup, template-specific post-render substitutions, cleanup again —
the post-processing applied to the raw mustache rendering. -/
def postRender (env : Env) (template : TemplateEntry) (rendered : String) : String :=
  cleanupRender (applyPostformat env template (cleanupRender rendered))

/-- `renderTemplate(template, input)`. -/
def renderTemplate (env : Env) (fuel : Nat) (template : TemplateEntry) (input : Obj) :
    Except String String :=
  match chooseTemplateText env template input with
  | none => Except.error "renderTemplate: undefined template text"
  | some templateText => do
    let rendered ← mustacheRender fuel templateText (templateInputOf input)
    let render := postRender env template rendered
    let render := if jsTrimL render.data = [] then cleanupRender (fallbackJoin input) else render
    pure (render ++ "\n")

/-- The result of `format`: a newline-joined string or an array of lines. -/
inductive FormatResult where
  | str : String → FormatResult
  | arr : List String → FormatResult
deriving DecidableEq

/-- `countryNames[cc]` is truthy. -/
def countryNameTruthy (env : Env) (cc : Option String) : Bool :=
  match lookupTable env.countryNames cc with
  | some v => v ≠ ""
  | none => false

/-- `format(input, options)`: the public pipeline.  The working map starts
from a shallow copy of the caller's object (`Object.assign({}, input)`);
the heap-level `formatOnHeap` below makes the copying explicit. -/
def format (env : Env) (fuel : Nat) (input : Obj) (opts : FmtOptions) :
    Except String FormatResult := do
  let realInput := input
  let realInput := normalizeComponentKeys realInput
  let realInput :=
    match opts.countryCode with
    | some cc => if cc ≠ "" then objSet realInput "country_code" cc else realInput
    | none => realInput
  let realInput := determineCountryCode env realInput opts.fallbackCountryCode
  let realInput :=
    if opts.appendCountry ∧ countryNameTruthy env (jsGet realInput "country_code") ∧
        ¬ truthyAt realInput "country" then
      objSet realInput "country" ((lookupTable env.countryNames (jsGet realInput "country_code")).getD "")
    else realInput
  let realInput := applyAliases realInput
  let template := findTemplate env realInput
  let realInput := cleanupInput env realInput template.replace opts
  let result ← renderTemplate env fuel template realInput
  if opts.output = some "array" then
    pure (FormatResult.arr (((splitNl result.data).map String.mk).filter (fun f => f ≠ "")))
  else
    pure (FormatResult.str result)

/-! ## A heap-level view of `format` (for the no-mutation property)

`format` receives a reference to the caller's object, copies it
(`Object.assign({}, input)`) and lets every pipeline stage mutate the
copy in place.  The explicit store makes "the caller's object is
untouched" a statement rather than a typing triviality. -/

/-- A store of address objects. -/
abbrev Heap := List (Nat × Obj)

/-- Read a reference. -/
def heapGet (h : Heap) (r : Nat) : Option Obj :=
  (h.find? (fun p => p.1 == r)).map (fun p => p.2)

/-- Write a reference (allocating it if absent). -/
def heapSet (h : Heap) (r : Nat) (o : Obj) : Heap :=
  if (h.find? (fun p => p.1 == r)).isSome then
    h.map (fun p => if p.1 == r then (r, o) else p)
  else h ++ [(r, o)]

/-- A reference not present in the store. -/
def freshRef (h : Heap) : Nat :=
  (h.map (fun p => p.1)).foldr max 0 + 1

/-- `format` with the aliasing made explicit: the caller's object lives at
`r`; a fresh copy is allocated and every stage writes through the copy's
reference only. -/
def formatOnHeap (env : Env) (fuel : Nat) (h : Heap) (r : Nat) (opts : FmtOptions) :
    Except String FormatResult × Heap :=
  let r2 := freshRef h
  let h := heapSet h r2 ((heapGet h r).getD [])
  let h := heapSet h r2 (normalizeComponentKeys ((heapGet h r2).getD []))
  let h :=
    match opts.countryCode with
    | some cc =>
      if cc ≠ "" then heapSet h r2 (objSet ((heapGet h r2).getD []) "country_code" cc) else h
    | none => h
  let h := heapSet h r2 (determineCountryCode env ((heapGet h r2).getD []) opts.fallbackCountryCode)
  let h :=
    if opts.appendCountry ∧ countryNameTruthy env (jsGet ((heapGet h r2).getD []) "country_code") ∧
        ¬ truthyAt ((heapGet h r2).getD []) "country" then
      heapSet h r2
        (objSet ((heapGet h r2).getD []) "country"
          ((lookupTable env.countryNames (jsGet ((heapGet h r2).getD []) "country_code")).getD ""))
    else h
  let h := heapSet h r2 (applyAliases ((heapGet h r2).getD []))
  let template := findTemplate env ((heapGet h r2).getD [])
  let h := heapSet h r2 (cleanupInput env ((heapGet h r2).getD []) template.replace opts)
  let result :=
    (renderTemplate env fuel template ((heapGet h r2).getD [])).map (fun s =>
      if opts.output = some "array" then
        FormatResult.arr (((splitNl s.data).map String.mk).filter (fun f => f ≠ ""))
      else FormatResult.str s)
  (result, h)

/-! ## Concrete data from the source's template table

The entries needed by the concrete runs below, transcribed verbatim from
the transpiled data (`{`/`}` written as `\x7b`/`\x7d`). -/

/-- `templates.default.address_template`. -/
def defaultAddressTemplate : String :=
  "\x7b\x7b\x7battention\x7d\x7d\x7d\n\x7b\x7b\x7bhouse\x7d\x7d\x7d\n\x7b\x7b\x7bfloor\x7d\x7d\x7d \x7b\x7b\x7bdoor\x7d\x7d\x7d\n\x7b\x7b#first\x7d\x7d \x7b\x7b\x7broad\x7d\x7d\x7d || \x7b\x7b\x7bplace\x7d\x7d\x7d || \x7b\x7b\x7bhamlet\x7d\x7d\x7d \x7b\x7b/first\x7d\x7d \x7b\x7b\x7bhouse_number\x7d\x7d\x7d\n\x7b\x7b\x7baddition\x7d\x7d\x7d\n\x7b\x7b\x7bpostcode\x7d\x7d\x7d \x7b\x7b#first\x7d\x7d \x7b\x7b\x7bpostal_city\x7d\x7d\x7d || \x7b\x7b\x7btown\x7d\x7d\x7d || \x7b\x7b\x7bcity\x7d\x7d\x7d || \x7b\x7b\x7bvillage\x7d\x7d\x7d || \x7b\x7b\x7bmunicipality\x7d\x7d\x7d || \x7b\x7b\x7bhamlet\x7d\x7d\x7d || \x7b\x7b\x7bcounty\x7d\x7d\x7d || \x7b\x7b\x7bstate\x7d\x7d\x7d || \x7b\x7b/first\x7d\x7d\n\x7b\x7b\x7barchipelago\x7d\x7d\x7d\n\x7b\x7b\x7bstate\x7d\x7d\x7d \x7b\x7b\x7bcounty\x7d\x7d\x7d\n\x7b\x7b\x7bcountry\x7d\x7d\x7d\n\x7b\x7b\x7binfos\x7d\x7d\x7d\n"

/-- `templates.default.fallback_template`. -/
def defaultFallbackTemplate : String :=
  "\x7b\x7b\x7battention\x7d\x7d\x7d\n\x7b\x7b\x7bhouse\x7d\x7d\x7d\n\x7b\x7b\x7bfloor\x7d\x7d\x7d \x7b\x7b\x7bdoor\x7d\x7d\x7d\n\x7b\x7b\x7broad\x7d\x7d\x7d \x7b\x7b\x7bhouse_number\x7d\x7d\x7d\n\x7b\x7b\x7baddition\x7d\x7d\x7d\n\x7b\x7b\x7bplace\x7d\x7d\x7d\n\x7b\x7b#first\x7d\x7d \x7b\x7b\x7bsuburb\x7d\x7d\x7d || \x7b\x7b\x7bcity_district\x7d\x7d\x7d || \x7b\x7b\x7bneighbourhood\x7d\x7d\x7d || \x7b\x7b\x7bisland\x7d\x7d\x7d \x7b\x7b/first\x7d\x7d\n\x7b\x7b#first\x7d\x7d \x7b\x7b\x7bcity\x7d\x7d\x7d || \x7b\x7b\x7btown\x7d\x7d\x7d || \x7b\x7b\x7bvillage\x7d\x7d\x7d || \x7b\x7b\x7bhamlet\x7d\x7d\x7d || \x7b\x7b\x7bmunicipality\x7d\x7d\x7d \x7b\x7b/first\x7d\x7d\n\x7b\x7b#first\x7d\x7d || \x7b\x7b\x7bcounty\x7d\x7d\x7d || \x7b\x7b\x7bstate_district\x7d\x7d\x7d || \x7b\x7b\x7bstate\x7d\x7d\x7d || \x7b\x7b\x7bregion\x7d\x7d\x7d || \x7b\x7b\x7bisland\x7d\x7d\x7d, \x7b\x7b\x7barchipelago\x7d\x7d\x7d \x7b\x7b/first\x7d\x7d\n\x7b\x7b\x7bstate\x7d\x7d\x7d \x7b\x7b\x7bcounty\x7d\x7d\x7d\n\x7b\x7b\x7bcountry\x7d\x7d\x7d\n\x7b\x7b\x7binfos\x7d\x7d\x7d\n"

/-- `templates.default`. -/
def defaultTemplateEntry : TemplateEntry :=
  { address_template := some defaultAddressTemplate,
    fallback_template := some defaultFallbackTemplate }

/-- `templates.GS` (South Georgia): a pure redirect whose `add_component`
names `county`, a field outside `VALID_REPLACEMENT_COMPONENTS`. -/
def gsEntry : TemplateEntry :=
  { use_country := some "GB",
    change_country := some "United Kingdom",
    add_component := some "county=South Georgia" }

/-- `templates.AS` (American Samoa): a pure redirect to `US` whose
`add_component` names `state`. -/
def asEntry : TemplateEntry :=
  { use_country := some "US",
    change_country := some "United States of America",
    add_component := some "state=American Samoa" }

/-- `templates.BQ` (Caribbean Netherlands): a redirect whose target is
`NL`, subject to the Curaçao/Sint Maarten/Aruba state override. -/
def bqEntry : TemplateEntry :=
  { use_country := some "NL",
    change_country := some "Caribbean Netherlands" }

/-- An environment holding the source's `default` entry (the slice of the
real table consulted by runs that resolve no country). -/
def envDefault : Env :=
  { templates := [("default", defaultTemplateEntry)] }

/-- `envDefault` extended with the real `GS`, `AS` and `BQ` redirect
entries. -/
def envRedirects : Env :=
  { templates :=
      [("GS", gsEntry), ("AS", asEntry), ("BQ", bqEntry),
       ("default", defaultTemplateEntry)] }

/-! # Theorems -/

/-! ## List and trim lemmas -/

theorem dropWhile_self_idem (p : Char → Bool) (l : List Char) :
    (l.dropWhile p).dropWhile p = l.dropWhile p := by
  induction l with
  | nil => rfl
  | cons c t ih =>
    by_cases h : p c
    · simp [List.dropWhile_cons, h, ih]
    · simp [List.dropWhile_cons, h]

theorem dropWhile_head_not (p : Char → Bool) (l : List Char) (h : Char) (t : List Char)
    (hd : l.dropWhile p = h :: t) : p h = false := by
  induction l with
  | nil => simp at hd
  | cons c t' ih =>
    by_cases hc : p c
    · exact ih (by simpa [List.dropWhile_cons, hc] using hd)
    · rw [List.dropWhile_cons, if_neg (by simp [hc])] at hd
      cases hd
      simpa using hc

theorem jsTrimL_drop_eq (l : List Char) :
    (jsTrimL l).dropWhile isJsSpace = jsTrimL l := by
  cases hB : jsTrimL l with
  | nil => simp
  | cons h t =>
    have hpre : jsTrimL l <+: l.dropWhile isJsSpace := by
      have hs : (l.dropWhile isJsSpace).reverse.dropWhile isJsSpace <:+
          (l.dropWhile isJsSpace).reverse := List.dropWhile_suffix _
      have h2 := (List.reverse_prefix).mpr hs
      simpa [jsTrimL] using h2
    obtain ⟨t2, ht2⟩ := hpre
    rw [hB] at ht2
    have hh : isJsSpace h = false :=
      dropWhile_head_not isJsSpace l h (t ++ t2) (by simpa using ht2.symm)
    simp [List.dropWhile_cons, hh]

theorem jsTrimL_idem (l : List Char) : jsTrimL (jsTrimL l) = jsTrimL l := by
  have h1 := jsTrimL_drop_eq l
  show (((jsTrimL l).dropWhile isJsSpace).reverse.dropWhile isJsSpace).reverse = jsTrimL l
  rw [h1]
  have hrev : (jsTrimL l).reverse = (l.dropWhile isJsSpace).reverse.dropWhile isJsSpace := by
    unfold jsTrimL
    simp
  rw [hrev, dropWhile_self_idem, ← hrev]
  simp

/-! ## C3: idempotence of the cleanup pass -/

set_option maxHeartbeats 1000000 in
/-- C3, counterexample: the cleanup substitutions rewrite only the first
occurrence of each pattern, so `"x,,y,,z,,w"` (three runs of repeated
commas) is cleaned further by a second pass — `cleanupRender` is not
idempotent. -/
theorem cleanupRender_not_idempotent :
    cleanupRender "x,,y,,z,,w" = "x, y,z,,w" ∧
    cleanupRender (cleanupRender "x,,y,,z,,w") = "x, y,z, w" ∧
    cleanupRender (cleanupRender "x,,y,,z,,w") ≠ cleanupRender "x,,y,,z,,w" := by
  refine ⟨by decide, by decide, by decide⟩

/-- C3, amended: a single cleanup pass is not a fixed point of itself in
general, but its result is always trimmed — trimming the output of
`cleanupRender` (stated on its character-list core `cleanupRenderL`) is a
no-op for every input. -/
theorem cleanupRender_trim_stable (l : List Char) :
    jsTrimL (cleanupRenderL l) = cleanupRenderL l := by
  unfold cleanupRenderL
  exact jsTrimL_idem _

/-! ## Object (association list) lemmas -/

theorem jsGet_nil (k : String) : jsGet [] k = none := rfl

theorem jsGet_cons (p : String × String) (t : Obj) (k : String) :
    jsGet (p :: t) k = if p.1 = k then some p.2 else jsGet t k := by
  by_cases h : p.1 = k
  · simp [jsGet, List.find?, h]
  · have h' : (p.1 == k) = false := by simpa using h
    simp [jsGet, List.find?, h, h']

theorem setFn_eq (k' v : String) :
    (fun p : String × String => if p.1 == k' then (k', v) else p) =
      (fun p : String × String => if p.1 = k' then (k', v) else p) := by
  funext p
  by_cases h : p.1 = k' <;> simp [h]

theorem jsGet_map_set_ne (t : Obj) (k k' v : String) (h : k ≠ k') :
    jsGet (t.map (fun p => if p.1 == k' then (k', v) else p)) k = jsGet t k := by
  rw [setFn_eq]
  induction t with
  | nil => rfl
  | cons p r ih =>
    by_cases hp : p.1 = k'
    · have h1 : ¬ (k' = k) := Ne.symm h
      have h2 : ¬ (p.1 = k) := by rw [hp]; exact h1
      simp only [List.map_cons, if_pos hp, jsGet_cons, ih]
      simp [h1, h2]
    · simp only [List.map_cons, if_neg hp, jsGet_cons, ih]

theorem jsGet_append_single_ne (t : Obj) (k k' v : String) (h : k ≠ k') :
    jsGet (t ++ [(k', v)]) k = jsGet t k := by
  induction t with
  | nil =>
    have h1 : ¬ (k' = k) := Ne.symm h
    simp [jsGet_cons, h1, jsGet_nil]
  | cons p r ih =>
    by_cases hp : p.1 = k <;> simp [List.cons_append, jsGet_cons, hp, ih]

theorem jsGet_objSet_ne (o : Obj) (k k' v : String) (h : k ≠ k') :
    jsGet (objSet o k' v) k = jsGet o k := by
  unfold objSet
  by_cases hf : (o.find? (fun p => p.1 == k')).isSome
  · rw [if_pos hf]
    exact jsGet_map_set_ne o k k' v h
  · rw [if_neg hf]
    exact jsGet_append_single_ne o k k' v h

theorem jsGet_map_set_self (t : Obj) (k v : String)
    (hf : (t.find? (fun p => p.1 == k)).isSome) :
    jsGet (t.map (fun p => if p.1 == k then (k, v) else p)) k = some v := by
  rw [setFn_eq]
  induction t with
  | nil => simp [List.find?] at hf
  | cons p r ih =>
    by_cases hp : p.1 = k
    · simp only [List.map_cons, if_pos hp, jsGet_cons]
      simp
    · have hb : (p.1 == k) = false := by simpa using hp
      have hf2 : (r.find? (fun p => p.1 == k)).isSome := by
        simpa [List.find?, hb] using hf
      simp only [List.map_cons, if_neg hp, jsGet_cons, ih hf2]
      try simp [hp]

theorem jsGet_none_of_find_none (t : Obj) (k : String)
    (hf : ¬ (t.find? (fun p => p.1 == k)).isSome) : jsGet t k = none := by
  unfold jsGet
  cases hh : t.find? (fun p => p.1 == k) with
  | none => rfl
  | some p => exact absurd (by simp [hh]) hf

theorem jsGet_objSet_self (o : Obj) (k v : String) :
    jsGet (objSet o k v) k = some v := by
  unfold objSet
  by_cases hf : (o.find? (fun p => p.1 == k)).isSome
  · rw [if_pos hf]
    exact jsGet_map_set_self o k v hf
  · rw [if_neg hf]
    induction o with
    | nil => simp [jsGet_cons, jsGet_nil]
    | cons p r ih =>
      by_cases hp : p.1 = k
      · have : (List.find? (fun p => p.1 == k) (p :: r)).isSome := by
          simp [List.find?, (by simpa using hp : (p.1 == k) = true)]
        exact absurd this hf
      · have hb : (p.1 == k) = false := by simpa using hp
        have hf2 : ¬ (r.find? (fun p => p.1 == k)).isSome := by
          simpa [List.find?, hb] using hf
        simpa [List.cons_append, jsGet_cons, hp] using ih hf2

theorem jsGet_objDelete (o : Obj) (k k' : String) :
    jsGet (objDelete o k') k = if k = k' then none else jsGet o k := by
  induction o with
  | nil => by_cases h : k = k' <;> simp [jsGet_nil, objDelete, List.filter, h]
  | cons p t ih =>
    by_cases hp : p.1 = k'
    · have hb : (p.1 != k') = false := by simp [hp]
      have hfilter : objDelete (p :: t) k' = objDelete t k' := by
        simp [objDelete, List.filter_cons, hb]
      rw [hfilter, ih]
      by_cases hk : k = k'
      · simp [hk]
      · have h2 : ¬ (p.1 = k) := by rw [hp]; exact fun hh => hk hh.symm
        simp [hk, jsGet_cons, h2]
    · have hb : (p.1 != k') = true := by simp [hp]
      have hfilter : objDelete (p :: t) k' = p :: objDelete t k' := by
        simp [objDelete, List.filter_cons, hb]
      rw [hfilter]
      by_cases hpk : p.1 = k
      · have hk : ¬ (k = k') := by rw [← hpk]; exact hp
        simp [jsGet_cons, hpk, hk]
      · simp [jsGet_cons, hpk, ih]

theorem jsGet_objDelete_ne (o : Obj) (k k' : String) (h : k ≠ k') :
    jsGet (objDelete o k') k = jsGet o k := by
  simp [jsGet_objDelete, h]

theorem jsGet_objDelete_self (o : Obj) (k : String) :
    jsGet (objDelete o k) k = none := by
  simp [jsGet_objDelete]

/-! ## Frame lemmas for the `cleanupInput` stages -/

theorem applyReplacements_nil (env : Env) (ks : List String) (input : Obj) :
    applyReplacements env ks [] input = input := by
  simp [applyReplacements]

theorem stateCodeSet_preserves (env : Env) (o : Obj) (k : String)
    (h1 : k ≠ "state_code") :
    jsGet (stateCodeSet env o) k = jsGet o k := by
  unfold stateCodeSet
  split
  · exact jsGet_objSet_ne _ _ _ _ h1
  · rfl

theorem stateCodeStage_preserves (env : Env) (o : Obj) (k : String)
    (h1 : k ≠ "state_code") (h2 : k ≠ "state") (h3 : k ≠ "city") :
    jsGet (stateCodeStage env o) k = jsGet o k := by
  unfold stateCodeStage
  split
  · split
    · rw [jsGet_objSet_ne _ _ _ _ h3, jsGet_objSet_ne _ _ _ _ h2,
        jsGet_objSet_ne _ _ _ _ h1, stateCodeSet_preserves _ _ _ h1]
    · exact stateCodeSet_preserves _ _ _ h1
  · rfl

theorem countyCodeStage_preserves (env : Env) (o : Obj) (k : String)
    (h1 : k ≠ "county_code") :
    jsGet (countyCodeStage env o) k = jsGet o k := by
  unfold countyCodeStage
  split
  · split <;> simp [jsGet_objSet_ne, h1]
  · rfl

theorem attentionStage_preserves (ks : List String) (o : Obj) (k : String)
    (h1 : k ≠ "attention") :
    jsGet (attentionStage ks o) k = jsGet o k := by
  unfold attentionStage
  split <;> simp [jsGet_objSet_ne, h1]

theorem postcodeStage_preserves (opts : FmtOptions) (o : Obj) (k : String)
    (h1 : k ≠ "postcode") :
    jsGet (postcodeStage opts o) k = jsGet o k := by
  unfold postcodeStage
  split
  · split
    · split
      · simp [jsGet_objDelete_ne, h1]
      · split
        · simp [jsGet_objDelete_ne, h1]
        · split <;> simp [jsGet_objSet_ne, h1]
    · rfl
  · rfl

theorem abbreviationStage_off (env : Env) (opts : FmtOptions) (o : Obj)
    (h : opts.abbreviate = false) :
    abbreviationStage env opts o = o := by
  simp [abbreviationStage, h]

theorem urlFold_none (keys : List String) (o : Obj) (k : String)
    (h : jsGet o k = none) :
    jsGet
      (keys.foldl
        (fun inp j =>
          match jsGet inp j with
          | some v => if isUrlString v then objDelete inp j else inp
          | none => inp)
        o) k = none := by
  induction keys generalizing o with
  | nil => exact h
  | cons j rest ih =>
    apply ih
    cases hj : jsGet o j with
    | none => simpa [hj] using h
    | some v =>
      by_cases hu : isUrlString v
      · simp only [hj, hu, if_true]
        by_cases hkj : k = j
        · simp [jsGet_objDelete, hkj]
        · simpa [jsGet_objDelete_ne _ _ _ hkj] using h
      · simpa [hj, hu] using h

theorem urlFold_keep (keys : List String) (o : Obj) (k v : String)
    (h : jsGet o k = some v) (hv : isUrlString v = false) :
    jsGet
      (keys.foldl
        (fun inp j =>
          match jsGet inp j with
          | some w => if isUrlString w then objDelete inp j else inp
          | none => inp)
        o) k = some v := by
  induction keys generalizing o with
  | nil => exact h
  | cons j rest ih =>
    apply ih
    by_cases hkj : k = j
    · subst hkj
      simp [h, hv]
    · cases hj : jsGet o j with
      | none => simpa [hj] using h
      | some w =>
        by_cases hu : isUrlString w
        · simpa [hj, hu, jsGet_objDelete_ne _ _ _ hkj] using h
        · simpa [hj, hu] using h

theorem urlStage_none (o : Obj) (k : String) (h : jsGet o k = none) :
    jsGet (urlStage o) k = none :=
  urlFold_none (objKeys o) o k h

theorem urlStage_keep (o : Obj) (k v : String) (h : jsGet o k = some v)
    (hv : isUrlString v = false) :
    jsGet (urlStage o) k = some v :=
  urlFold_keep (objKeys o) o k v h hv

/-! ## C5: postcode normalisation -/

theorem isPrefixOf_false_of_longer (p l : List Char) (h : l.length < p.length) :
    List.isPrefixOf p l = false := by
  cases hp : List.isPrefixOf p l
  · rfl
  · have hpre : p <+: l := List.isPrefixOf_iff_prefix.mp hp
    exact absurd hpre.length_le (by omega)

theorem multiCodeFirst_not_url (pc q : String) (h : multiCodeFirst pc = some q) :
    isUrlString q = false := by
  unfold multiCodeFirst at h
  split at h
  · split at h
    · cases h
      unfold isUrlString
      rw [isPrefixOf_false_of_longer _ _ (by simp [toLowerL]),
        isPrefixOf_false_of_longer _ _ (by simp [toLowerL])]
      rfl
    · cases h
  · cases h

theorem postcodeStage_eq (opts : FmtOptions) (o : Obj) (p : String)
    (hp : jsGet o "postcode" = some p) :
    postcodeStage opts o =
      if p ≠ "" ∧ opts.cleanupPostcode ≠ some false then
        if p.length > 20 then objDelete o "postcode"
        else if hasNumRange p.data then objDelete o "postcode"
        else
          match multiCodeFirst p with
          | some first5 => objSet o "postcode" first5
          | none => o
      else o := by
  unfold postcodeStage
  rw [hp]

/-- C5: with postcode cleanup enabled (any `cleanupPostcode` other than
`false`) and the replacement/abbreviation stages out of the way, the
postcode is deleted when longer than 20 characters, deleted when it
matches the numeric-range pattern `\d+;\d+`, truncated to its leading
five-digit code when it matches `^(\d{5}),\d{5}`, and left unchanged
otherwise (provided its value does not look like a URL, which a later,
separate cleanup stage would drop). -/
theorem cleanupInput_postcode_rules (env : Env) (input : Obj) (opts : FmtOptions)
    (p : String)
    (hen : opts.cleanupPostcode ≠ some false)
    (hab : opts.abbreviate = false)
    (hp : jsGet input "postcode" = some p) (hpne : p ≠ "") :
    (p.length > 20 → jsGet (cleanupInput env input [] opts) "postcode" = none) ∧
    (¬ p.length > 20 → hasNumRange p.data = true →
      jsGet (cleanupInput env input [] opts) "postcode" = none) ∧
    (∀ q, ¬ p.length > 20 → hasNumRange p.data = false → multiCodeFirst p = some q →
      jsGet (cleanupInput env input [] opts) "postcode" = some q) ∧
    (¬ p.length > 20 → hasNumRange p.data = false → multiCodeFirst p = none →
      isUrlString p = false →
      jsGet (cleanupInput env input [] opts) "postcode" = some p) := by
  have hbase :
      jsGet (attentionStage (objKeys input) (countyCodeStage env (stateCodeStage env
        (applyReplacements env (objKeys input) [] input)))) "postcode" = some p := by
    rw [applyReplacements_nil,
      attentionStage_preserves _ _ _ (by decide),
      countyCodeStage_preserves _ _ _ (by decide),
      stateCodeStage_preserves _ _ _ (by decide) (by decide) (by decide)]
    exact hp
  unfold cleanupInput
  rw [abbreviationStage_off env opts _ hab, postcodeStage_eq opts _ p hbase,
    if_pos ⟨hpne, hen⟩]
  refine ⟨?_, ?_, ?_, ?_⟩
  · intro hlong
    rw [if_pos hlong]
    exact urlStage_none _ _ (jsGet_objDelete_self _ _)
  · intro hlong hrange
    rw [if_neg hlong, if_pos hrange]
    exact urlStage_none _ _ (jsGet_objDelete_self _ _)
  · intro q hlong hrange hmc
    rw [if_neg hlong, if_neg (by simp [hrange]), hmc]
    exact urlStage_keep _ _ q (jsGet_objSet_self _ _ _) (multiCodeFirst_not_url p q hmc)
  · intro hlong hrange hmc hurl
    rw [if_neg hlong, if_neg (by simp [hrange]), hmc]
    exact urlStage_keep _ _ p hbase hurl

/-- C5, witness: the numeric-range postcode `"12345;67890"` is dropped. -/
theorem cleanupInput_postcode_rules_witness :
    jsGet (cleanupInput envDefault [("postcode", "12345;67890")] [] {}) "postcode" = none :=
  (cleanupInput_postcode_rules envDefault [("postcode", "12345;67890")] {} "12345;67890"
    (by decide) rfl rfl (by decide)).2.1 (by decide) (by decide)

/-! ## C6: `use_country` redirection -/

/-- C6, counterexample: the source applies an `add_component` directive
only when its field is in `VALID_REPLACEMENT_COMPONENTS` (`state` alone).
The real `GS` entry carries `add_component: "county=South Georgia";` on
input `{ country_code: "GS" }` the claim expects `county` to be added to
the working field set, but the code leaves it absent. -/
theorem determineCountryCode_gs_county_dropped :
    determineCountryCode envRedirects [("country_code", "GS")] none =
      [("country_code", "GB"), ("country", "United Kingdom")] ∧
    jsGet (determineCountryCode envRedirects [("country_code", "GS")] none) "county" =
      none := by
  refine ⟨by decide, by decide⟩

theorem determineCountryCode_useCountry_eq (env : Env) (input : Obj)
    (fb : Option String) (cc uc target : String) (e : TemplateEntry)
    (hget : jsGet input "country_code" = some cc) (hcc : cc ≠ "")
    (huc : uc = String.mk (toUpperL cc.data))
    (hentry : lookupTable env.templates (some uc) = some e)
    (hlen : uc.length = 2) (hUK : uc ≠ "UK")
    (htarget : e.use_country = some target) :
    determineCountryCode env input fb =
      objSet (nlStateOverride (String.mk (toUpperL target.data))
          (applyAddComponent e (applyChangeCountry e input))).2 "country_code"
        (nlStateOverride (String.mk (toUpperL target.data))
          (applyAddComponent e (applyChangeCountry e input))).1 := by
  unfold determineCountryCode
  rw [hget]
  simp only [Option.map_some']
  rw [if_neg hcc, ← huc, hentry]
  simp only [Option.isSome_some, Option.isNone_some, Bool.false_and, Bool.false_eq_true,
    false_and, if_neg, ite_false]
  rw [if_neg (by simpa using hlen), if_neg hUK, hentry]
  simp only [htarget]

theorem nlStateOverride_skip (cc3 : String) (input : Obj)
    (h : ¬ (cc3 = "NL" ∧ truthyAt input "state" = true)) :
    nlStateOverride cc3 input = (cc3, input) := by
  unfold nlStateOverride
  rw [if_neg h]

theorem nlStateOverride_state (input : Obj) (st : String)
    (hst : jsGet input "state" = some st) (hne : st ≠ "") :
    nlStateOverride "NL" input =
      (if st = "Curaçao" then ("CW", objSet input "country" "Curaçao")
       else if containsSub ("sint maarten").data (toLowerL st.data) = true then
         ("SX", objSet input "country" "Sint Maarten")
       else if containsSub ("aruba").data (toLowerL st.data) = true then
         ("AW", objSet input "country" "Aruba")
       else ("NL", input)) := by
  have htr : truthyAt input "state" = true := by
    simp [truthyAt, hst, hne]
  unfold nlStateOverride
  rw [if_pos ⟨rfl, htr⟩]
  simp only [hst, Option.getD_some]

/-- C6, amended: if the resolved country's entry sets `use_country`,
`determineCountryCode` switches the working country code to the
(upper-cased) redirect target, so template lookup uses the target
country's entry (with its `replace` and `postformat_replace` tables); the
original entry's `change_country` is applied to the working field set
with the single `$field` substitution taken from the input (empty when
the field is absent or empty); its `add_component` directive, however, is
applied only when its field is `state` (the sole member of
`VALID_REPLACEMENT_COMPONENTS`) — a directive naming any other field is
ignored.  When the redirect target is `NL` (the real `BQ` entry), a
further state check runs over the working field set: a truthy `state`
equal to `Curaçao`, or matching `sint maarten` or `aruba`
case-insensitively, overrides the working code with `CW`/`SX`/`AW` and
rewrites `country` from the state, so lookup then uses that entry, not
`NL`'s. -/
theorem determineCountryCode_redirect (env : Env) (input : Obj) (fb : Option String)
    (cc uc target : String) (e : TemplateEntry)
    (hget : jsGet input "country_code" = some cc) (hcc : cc ≠ "")
    (huc : uc = String.mk (toUpperL cc.data))
    (hentry : lookupTable env.templates (some uc) = some e)
    (hlen : uc.length = 2) (hUK : uc ≠ "UK")
    (htarget : e.use_country = some target) :
    (String.mk (toUpperL target.data) ≠ "NL" →
      (jsGet (determineCountryCode env input fb) "country_code" =
        some (String.mk (toUpperL target.data)) ∧
      (∀ te, lookupTable env.templates (some (String.mk (toUpperL target.data))) = some te →
        findTemplate env (determineCountryCode env input fb) = te) ∧
      (∀ s, e.change_country = some s →
        jsGet (determineCountryCode env input fb) "country" =
          some (changeCountrySubst input s)) ∧
      (∀ acs f v rest, e.add_component = some acs → acs.data.contains '=' = true →
        (splitChar '=' acs.data).map String.mk = f :: v :: rest →
        ((f = "state" → jsGet (determineCountryCode env input fb) "state" = some v) ∧
         (validReplacementComponents.contains f = false → f ≠ "country" →
           f ≠ "country_code" →
           jsGet (determineCountryCode env input fb) f = jsGet input f))))) ∧
    (String.mk (toUpperL target.data) = "NL" →
      ((truthyAt (applyAddComponent e (applyChangeCountry e input)) "state" = false →
        determineCountryCode env input fb =
          objSet (applyAddComponent e (applyChangeCountry e input)) "country_code" "NL") ∧
      (∀ st, jsGet (applyAddComponent e (applyChangeCountry e input)) "state" = some st →
        st ≠ "" →
        ((st = "Curaçao" →
          determineCountryCode env input fb =
            objSet (objSet (applyAddComponent e (applyChangeCountry e input))
              "country" "Curaçao") "country_code" "CW") ∧
         (st ≠ "Curaçao" →
          containsSub ("sint maarten").data (toLowerL st.data) = true →
          determineCountryCode env input fb =
            objSet (objSet (applyAddComponent e (applyChangeCountry e input))
              "country" "Sint Maarten") "country_code" "SX") ∧
         (st ≠ "Curaçao" →
          containsSub ("sint maarten").data (toLowerL st.data) = false →
          containsSub ("aruba").data (toLowerL st.data) = true →
          determineCountryCode env input fb =
            objSet (objSet (applyAddComponent e (applyChangeCountry e input))
              "country" "Aruba") "country_code" "AW") ∧
         (st ≠ "Curaçao" →
          containsSub ("sint maarten").data (toLowerL st.data) = false →
          containsSub ("aruba").data (toLowerL st.data) = false →
          determineCountryCode env input fb =
            objSet (applyAddComponent e (applyChangeCountry e input))
              "country_code" "NL"))))) := by
  have hout0 := determineCountryCode_useCountry_eq env input fb cc uc target e
    hget hcc huc hentry hlen hUK htarget
  constructor
  · intro hNL
    have hout : determineCountryCode env input fb =
        objSet (applyAddComponent e (applyChangeCountry e input)) "country_code"
          (String.mk (toUpperL target.data)) := by
      rw [hout0, nlStateOverride_skip _ _ (fun hcon => hNL hcon.1)]
    have haddComp_ne : ∀ (W : Obj) (k : String), k ≠ "state" →
        jsGet (applyAddComponent e W) k = jsGet W k := by
      intro W k hk
      unfold applyAddComponent
      split
      · split
        · split
          · split
            · rename_i hv
              rename_i p0 p1 tl hm
              have hp0 : p0 = "state" := by
                simpa [validReplacementComponents] using hv
              exact jsGet_objSet_ne _ _ _ _ (by rw [hp0]; exact hk)
            · rfl
          · rfl
        · rfl
      · rfl
    have hchange_ne : ∀ (k : String), k ≠ "country" →
        jsGet (applyChangeCountry e input) k = jsGet input k := by
      intro k hk
      unfold applyChangeCountry
      cases e.change_country with
      | none => rfl
      | some s => exact jsGet_objSet_ne _ _ _ _ hk
    constructor
    · rw [hout]
      exact jsGet_objSet_self _ _ _
    constructor
    · intro te hte
      unfold findTemplate
      rw [hout, jsGet_objSet_self _ _ _, hte]
    constructor
    · intro s hs
      rw [hout, jsGet_objSet_ne _ _ _ _ (by decide),
        haddComp_ne _ _ (by decide)]
      unfold applyChangeCountry
      rw [hs]
      exact jsGet_objSet_self _ _ _
    · intro acs f v rest hac heq hsplit
      constructor
      · intro hf
        subst hf
        have hone : applyAddComponent e (applyChangeCountry e input) =
            objSet (applyChangeCountry e input) "state" v := by
          simp only [applyAddComponent, hac, heq, hsplit]
          rw [if_pos trivial, if_pos (by decide)]
        rw [hout, jsGet_objSet_ne _ _ _ _ (by decide), hone]
        exact jsGet_objSet_self _ _ _
      · intro hval hfc hfcc
        have hnone : applyAddComponent e (applyChangeCountry e input) =
            applyChangeCountry e input := by
          simp only [applyAddComponent, hac, heq, hsplit]
          rw [if_pos trivial, if_neg (by simp only [hval]; decide)]
        rw [hout, jsGet_objSet_ne _ _ _ _ hfcc, hnone, hchange_ne _ hfc]
  · intro hNLeq
    rw [hout0, hNLeq]
    constructor
    · intro hst
      rw [nlStateOverride_skip _ _ (fun hcon => absurd hcon.2 (by simp [hst]))]
    · intro st hstW hne
      rw [nlStateOverride_state _ st hstW hne]
      refine ⟨?_, ?_, ?_, ?_⟩
      · intro hcur
        rw [if_pos hcur]
      · intro hncur hsm
        rw [if_neg hncur, if_pos hsm]
      · intro hncur hsm hab
        rw [if_neg hncur, if_neg (by simp [hsm]), if_pos hab]
      · intro hncur hsm hab
        rw [if_neg hncur, if_neg (by simp [hsm]), if_neg (by simp [hab])]

/-- C6, witness: the real `AS` entry (`use_country: "US"`,
`change_country: "United States of America"`,
`add_component: "state=American Samoa"`) redirects the working code to
`US` and writes the `state` component; the real `BQ` entry
(`use_country: "NL"`) with `state: "Aruba"` is overridden to `AW` with
`country` rewritten to `Aruba`. -/
theorem determineCountryCode_redirect_witness :
    jsGet (determineCountryCode envRedirects [("country_code", "AS")] none)
        "country_code" = some "US" ∧
    jsGet (determineCountryCode envRedirects [("country_code", "AS")] none)
        "country" = some "United States of America" ∧
    jsGet (determineCountryCode envRedirects [("country_code", "AS")] none)
        "state" = some "American Samoa" ∧
    determineCountryCode envRedirects
        [("country_code", "BQ"), ("state", "Aruba")] none =
      [("country_code", "AW"), ("state", "Aruba"), ("country", "Aruba")] := by
  have h := (determineCountryCode_redirect envRedirects [("country_code", "AS")] none
    "AS" "AS" "US" asEntry rfl (by decide) rfl rfl rfl (by decide) rfl).1 (by decide)
  refine ⟨h.1, h.2.2.1 "United States of America" rfl,
    (h.2.2.2 "state=American Samoa" "state" "American Samoa" [] rfl rfl rfl).1 rfl, ?_⟩
  have h2 := (determineCountryCode_redirect envRedirects
    [("country_code", "BQ"), ("state", "Aruba")] none
    "BQ" "BQ" "NL" bqEntry rfl (by decide) rfl rfl rfl (by decide) rfl).2 rfl
  have h3 := ((h2.2 "Aruba" rfl (by decide)).2.2.1 (by decide) rfl rfl)
  rw [h3]
  rfl


/-! ## C7: the `first` selector -/

theorem ws_ne_bar {c : Char} (h : isJsSpace c = true) : c ≠ '|' := by
  intro he
  rw [he] at h
  exact absurd h (by decide)

theorem splitBarsGo_push1 (c : Char) (acc : List Char) (c2 : Char) (t2 : List Char)
    (hne : ¬ (c = '|' ∧ c2 = '|')) :
    splitBarsGo false acc (c :: c2 :: t2) = splitBarsGo false (c :: acc) (c2 :: t2) := by
  simp only [splitBarsGo]
  rw [if_neg hne]
  simp

theorem splitBarsGo_sep (acc r : List Char) :
    splitBarsGo false acc ('|' :: '|' :: r) =
      (acc.dropWhile isJsSpace).reverse :: splitBarsGo true [] r := by
  simp [splitBarsGo]

theorem splitBarsGo_push (l : List Char) :
    ∀ (acc r : List Char), '|' ∉ l →
      splitBarsGo false acc (l ++ r) = splitBarsGo false (l.reverse ++ acc) r := by
  induction l with
  | nil => intro acc r _; simp
  | cons c t ih =>
    intro acc r hl
    have hc : c ≠ '|' := fun he => hl (by rw [he]; exact List.mem_cons_self _ _)
    have ht : '|' ∉ t := fun hm => hl (List.mem_cons_of_mem c hm)
    rw [List.cons_append]
    cases htr : t ++ r with
    | nil =>
      obtain ⟨ht0, hr0⟩ := List.append_eq_nil.mp htr
      rw [ht0, hr0]
      simp [splitBarsGo]
    | cons c2 t2 =>
      rw [splitBarsGo_push1 c acc c2 t2 (fun hp => hc hp.1), ← htr,
        ih (c :: acc) r ht]
      simp [List.reverse_cons, List.append_assoc]

theorem splitBarsGo_skipws (w : List Char) :
    ∀ (acc r : List Char), (∀ c ∈ w, isJsSpace c = true) →
      splitBarsGo true acc (w ++ r) = splitBarsGo true acc r := by
  induction w with
  | nil => intro acc r _; simp
  | cons c t ih =>
    intro acc r hw
    have hc : isJsSpace c = true := hw c (List.mem_cons_self _ _)
    rw [List.cons_append]
    cases htr : t ++ r with
    | nil =>
      obtain ⟨ht0, hr0⟩ := List.append_eq_nil.mp htr
      rw [hr0]
      simp [splitBarsGo, hc]
    | cons c2 t2 =>
      simp only [splitBarsGo]
      rw [if_neg (fun hp => ws_ne_bar hc hp.1), if_pos (by simp [hc]), ← htr]
      exact ih acc r (fun x hx => hw x (List.mem_cons_of_mem c hx))

theorem splitBarsGo_skip_stop (c : Char) (acc t : List Char)
    (hws : isJsSpace c = false) (hcb : c ≠ '|') :
    splitBarsGo true acc (c :: t) = splitBarsGo false (c :: acc) t := by
  cases t with
  | nil => simp [splitBarsGo, hws]
  | cons c2 t2 =>
    simp only [splitBarsGo]
    rw [if_neg (fun hp => hcb hp.1), if_neg (by simp [hws])]

theorem jsTrimBothWs_ne_nil (l : List Char) (h : l.dropWhile isJsSpace ≠ []) :
    jsTrimBothWs l ≠ [] := by
  obtain ⟨c, t, hm⟩ : ∃ c t, l.dropWhile isJsSpace = c :: t := by
    cases hx : l.dropWhile isJsSpace with
    | nil => exact absurd hx h
    | cons a b => exact ⟨a, b, rfl⟩
  have hc : isJsSpace c = false := dropWhile_head_not _ l c t hm
  intro hnil
  unfold jsTrimBothWs dropTrailingWs at hnil
  rw [hm] at hnil
  have hinner : (c :: t).reverse.dropWhile isJsSpace = [] := by
    simpa using hnil
  have hall := List.dropWhile_eq_nil_iff.mp hinner
  have := hall c (by simp)
  rw [hc] at this
  exact Bool.noConfusion this

theorem splitBars_three (rA rB rC : List Char)
    (hA : ∀ c ∈ rA, isJsSpace c = true) (hC : ∀ c ∈ rC, isJsSpace c = true)
    (hB : '|' ∉ rB) (hBne : rB.dropWhile isJsSpace ≠ []) :
    splitBarsGo false [] (rA ++ (" || ").data ++ rB ++ (" || ").data ++ rC) =
      [[], jsTrimBothWs rB, []] := by
  obtain ⟨c, mB, hm⟩ : ∃ c mB, rB.dropWhile isJsSpace = c :: mB := by
    cases hx : rB.dropWhile isJsSpace with
    | nil => exact absurd hx hBne
    | cons a b => exact ⟨a, b, rfl⟩
  have hcws : isJsSpace c = false := dropWhile_head_not _ rB c mB hm
  have hcmem : c ∈ rB := (List.dropWhile_sublist _).subset
    (by rw [hm]; exact List.mem_cons_self _ _)
  have hcb : c ≠ '|' := fun he => hB (he ▸ hcmem)
  have hmB : '|' ∉ mB := fun hmem => hB ((List.dropWhile_sublist _).subset
    (by rw [hm]; exact List.mem_cons_of_mem _ hmem))
  have hsh : rA ++ (" || ").data ++ rB ++ (" || ").data ++ rC
      = rA ++ (' ' :: '|' :: '|' :: ' ' ::
          (rB ++ (' ' :: '|' :: '|' :: ' ' :: rC))) := by
    simp [List.append_assoc]
  rw [hsh,
    splitBarsGo_push rA [] _ (fun hmem => absurd (hA _ hmem) (by decide)),
    splitBarsGo_push1 ' ' _ '|' _ (fun hp => absurd hp.1 (by decide)),
    splitBarsGo_sep]
  have h1 : ((' ' :: (rA.reverse ++ ([] : List Char))).dropWhile isJsSpace) = [] := by
    refine List.dropWhile_eq_nil_iff.mpr ?_
    intro x hx
    rcases List.mem_cons.mp hx with h | h
    · rw [h]; decide
    · exact hA x (by simpa using h)
  rw [h1]
  have hsh2 : (' ' :: (rB ++ (' ' :: '|' :: '|' :: ' ' :: rC)))
      = (' ' :: rB.takeWhile isJsSpace) ++
          ((c :: mB) ++ (' ' :: '|' :: '|' :: ' ' :: rC)) := by
    rw [← hm, List.cons_append, ← List.append_assoc, List.takeWhile_append_dropWhile]
  rw [hsh2,
    splitBarsGo_skipws (' ' :: rB.takeWhile isJsSpace) [] _ (by
      intro x hx
      rcases List.mem_cons.mp hx with h | h
      · rw [h]; decide
      · exact List.mem_takeWhile_imp h),
    List.cons_append,
    splitBarsGo_skip_stop c [] _ hcws hcb,
    splitBarsGo_push mB (c :: []) _ hmB,
    splitBarsGo_push1 ' ' _ '|' _ (fun hp => absurd hp.1 (by decide)),
    splitBarsGo_sep]
  have h2 : splitBarsGo true [] (' ' :: rC) = [[]] := by
    rw [show (' ' :: rC) = (' ' :: rC) ++ [] from (List.append_nil _).symm,
      splitBarsGo_skipws (' ' :: rC) [] [] (by
        intro x hx
        rcases List.mem_cons.mp hx with h | h
        · rw [h]; decide
        · exact hC x h)]
    rfl
  have h3 : ((' ' :: (mB.reverse ++ (c :: []))).dropWhile isJsSpace).reverse
      = jsTrimBothWs rB := by
    unfold jsTrimBothWs dropTrailingWs
    rw [hm, List.reverse_cons, List.dropWhile_cons, if_pos (by decide)]
  rw [h2, h3]
  rfl

theorem findV_setFn_eq (k' : String) (v : Value) :
    (fun p : String × Value => if p.1 == k' then (k', v) else p) =
      (fun p : String × Value => if p.1 = k' then (k', v) else p) := by
  funext p
  by_cases h : p.1 = k' <;> simp [h]

theorem findV_map_set_self (t : List (String × Value)) (k : String) (v : Value)
    (hf : (t.find? (fun p => p.1 == k)).isSome) :
    (t.map (fun p => if p.1 == k then (k, v) else p)).find? (fun p => p.1 == k)
      = some (k, v) := by
  rw [findV_setFn_eq]
  induction t with
  | nil => simp [List.find?] at hf
  | cons p r ih =>
    by_cases hp : p.1 = k
    · simp only [List.map_cons, if_pos hp]
      simp [List.find?]
    · have hb : (p.1 == k) = false := by simpa using hp
      have hf2 : (r.find? (fun p => p.1 == k)).isSome := by
        simpa [List.find?, hb] using hf
      simp only [List.map_cons, if_neg hp]
      simp [List.find?, hb, ih hf2]

theorem findV_append_single_self (t : List (String × Value)) (k : String) (v : Value)
    (hf : ¬ (t.find? (fun p => p.1 == k)).isSome) :
    (t ++ [(k, v)]).find? (fun p => p.1 == k) = some (k, v) := by
  induction t with
  | nil => simp [List.find?]
  | cons p r ih =>
    by_cases hp : p.1 = k
    · exact absurd (by simp [List.find?, (by simpa using hp : (p.1 == k) = true)]) hf
    · have hb : (p.1 == k) = false := by simpa using hp
      have hf2 : ¬ (r.find? (fun p => p.1 == k)).isSome := by
        simpa [List.find?, hb] using hf
      simp [List.find?, hb, ih hf2]

theorem findV_objSetV_self (o : List (String × Value)) (k : String) (v : Value) :
    (objSetV o k v).find? (fun p => p.1 == k) = some (k, v) := by
  unfold objSetV
  by_cases hf : (o.find? (fun p => p.1 == k)).isSome
  · rw [if_pos hf]
    exact findV_map_set_self o k v hf
  · rw [if_neg hf]
    exact findV_append_single_self o k v hf

theorem ctxLookup_first (input : Obj) (rest : List Value) :
    ctxLookup (templateInputOf input :: rest) "first" = Value.vLam firstHelper := by
  have hfind := findV_objSetV_self (input.map (fun p => (p.1, Value.vStr p.2))) "first"
      (Value.vFn0 (fun _ => Value.vLam firstHelper))
  have hhas : hasPropObj (templateInputOf input) "first" = true := by
    simp only [templateInputOf, hasPropObj, hfind, Option.isSome_some]
  have hmem : getMember (templateInputOf input) "first"
      = Value.vFn0 (fun _ => Value.vLam firstHelper) := by
    simp only [templateInputOf, getMember, hfind, Option.map_some', Option.getD_some]
  simp only [ctxLookup, ctxFind]
  rw [if_neg (by decide), if_neg (by decide), if_pos hhas, hmem]

set_option maxRecDepth 100000 in
/-- C7, counterexample: with `a` and `c` empty and `b = " B "`, the
first-section over the body `a || b || c` renders `"B"` — the separator
regex absorbs the whitespace around each alternative — while `b` alone
renders `" B "`; the section does not render exactly as `B` alone. -/
theorem first_section_not_b_alone :
    mustacheRender 50
        "\x7b\x7b#first\x7d\x7d\x7b\x7ba\x7d\x7d || \x7b\x7bb\x7d\x7d || \x7b\x7bc\x7d\x7d\x7b\x7b/first\x7d\x7d"
        (templateInputOf [("a", ""), ("b", " B "), ("c", "")]) = Except.ok "B" ∧
    mustacheRender 50 "\x7b\x7bb\x7d\x7d"
        (templateInputOf [("a", ""), ("b", " B "), ("c", "")]) = Except.ok " B " ∧
    ("B" : String) ≠ " B " :=
  ⟨rfl, rfl, by decide⟩

/-- C7, amended: a section named `first` looks up the helper installed by
`renderTemplate` (a function value), so the engine hands the raw body
slice to `firstHelper` together with the engine's own sub-render — the
body is rendered once against the current context; the rendered string is
split on `\s*\|\|\s*`, empty alternatives are discarded and the first
remaining one is the section's output (empty when none remains).  For a
body `A || B || C` whose alternatives `A` and `C` render to whitespace
and whose `B` renders to a non-whitespace string without `|`, the section
renders as the rendering of `B` trimmed of leading and trailing
whitespace (the `\s*` of the separator absorbs it), not necessarily as
`B` alone. -/
theorem first_section_semantics :
    (∀ (fuel : Nat) (children : List Tok) (a b : Nat) (input : Obj)
        (rest : List Value) (partials : List (String × String)) (tpl : String),
      renderTok (fuel + 1) (.sect "first" children a b)
          (templateInputOf input :: rest) partials tpl =
        firstHelper (strSlice tpl a b)
          (fun t => renderGo fuel (.sub t) (templateInputOf input :: rest) partials tpl)) ∧
    (∀ (text : String) (render : String → Except String String) (rA rB rC : List Char),
      (∀ c ∈ rA, isJsSpace c = true) → (∀ c ∈ rC, isJsSpace c = true) →
      '|' ∉ rB → rB.dropWhile isJsSpace ≠ [] →
      render text =
        Except.ok (String.mk (rA ++ (" || ").data ++ rB ++ (" || ").data ++ rC)) →
      firstHelper text render = Except.ok (String.mk (jsTrimBothWs rB))) := by
  constructor
  · intro fuel children a b input rest partials tpl
    have hlook := ctxLookup_first input rest
    simp only [renderTok, renderGo, hlook, jsTruthy, Bool.not_true, Bool.false_eq_true,
      if_false, ite_false]
  · intro text render rA rB rC hA hC hB hBne hrender
    have hsb : splitBarsGo false []
        ((String.mk (rA ++ (" || ").data ++ rB ++ (" || ").data ++ rC)).data) =
        [[], jsTrimBothWs rB, []] := splitBars_three rA rB rC hA hC hB hBne
    have hlen : 0 < (String.mk (jsTrimBothWs rB)).length :=
      List.length_pos.mpr (jsTrimBothWs_ne_nil rB hBne)
    have hsplit : splitBars
        (String.mk (rA ++ (" || ").data ++ rB ++ (" || ").data ++ rC)) =
        ["", String.mk (jsTrimBothWs rB), ""] := by
      unfold splitBars
      rw [hsb]
      rfl
    unfold firstHelper
    rw [hrender]
    show Except.ok _ = _
    rw [hsplit]
    have hfil : (["", String.mk (jsTrimBothWs rB), ""].filter (fun b => b.length > 0))
        = [String.mk (jsTrimBothWs rB)] := by
      have hd : decide (0 < (jsTrimBothWs rB).length) = true :=
        decide_eq_true (List.length_pos.mpr (jsTrimBothWs_ne_nil rB hBne))
      simp [List.filter, hd]
    rw [hfil]

/-- C7, witness: the dispatch equation at a concrete token, and the
selector on a rendering `" ||  B  || "` (empty first and third
alternatives) returning the trimmed middle alternative `"B"`. -/
theorem first_section_semantics_witness :
    renderTok 6 (Tok.sect "first" [] 0 0) (templateInputOf [] :: []) [] "x" =
      firstHelper (strSlice "x" 0 0)
        (fun t => renderGo 5 (RCmd.sub t) (templateInputOf [] :: []) [] "x") ∧
    firstHelper "body" (fun _ => Except.ok " ||  B  || ") = Except.ok "B" := by
  constructor
  · exact first_section_semantics.1 5 [] 0 0 [] [] [] "x"
  · have h := first_section_semantics.2 "body" (fun _ => Except.ok " ||  B  || ")
      [] (' ' :: 'B' :: [' ']) []
      (by intro c hc; cases hc) (by intro c hc; cases hc)
      (by decide) (by decide) rfl
    exact h

/-! ## C8: section value dispatch -/

theorem foldl_append_shift (l : List String) : ∀ a b : String,
    l.foldl (fun r s => r ++ s) (a ++ b) = a ++ l.foldl (fun r s => r ++ s) b := by
  induction l with
  | nil => intro a b; simp
  | cons s t ih =>
    intro a b
    simp only [List.foldl_cons]
    rw [String.append_assoc]
    exact ih a (b ++ s)

theorem string_join_cons (s : String) (rs : List String) :
    String.join (s :: rs) = s ++ String.join rs := by
  simp only [String.join, List.foldl_cons]
  rw [show ("" : String) ++ s = s ++ "" from by rw [String.append_empty]; rfl]
  exact foldl_append_shift rs s ""

theorem foldlM_append_eq_mapM (f : Value → Except String String) (xs : List Value) :
    ∀ buf : String,
      xs.foldlM (fun buf el => do
        let r ← f el
        pure (buf ++ r)) buf =
      (xs.mapM f).map (fun rs => buf ++ String.join rs) := by
  induction xs with
  | nil =>
    intro buf
    rw [show (List.mapM f [] : Except String (List String)) = pure [] from rfl]
    show pure buf = pure (buf ++ "")
    rw [String.append_empty]
  | cons el els ih =>
    intro buf
    rw [List.foldlM_cons, List.mapM_cons]
    cases hf : f el with
    | error e => rfl
    | ok r =>
      have hih := ih (buf ++ r)
      show List.foldlM _ (buf ++ r) els = _
      rw [hih]
      cases hm : els.mapM f with
      | error e => rfl
      | ok rs =>
        show Except.ok ((buf ++ r) ++ String.join rs) =
          Except.ok (buf ++ String.join (r :: rs))
        rw [string_join_cons, String.append_assoc]

/-- C8: the section dispatch of the evaluator: a falsy looked-up value
(or an empty array) contributes nothing; an array renders the children
once per element, in element order, with the element pushed as the new
context layer, concatenating the results; an object, a non-empty string
or a non-zero number renders the children once with the value pushed. -/
theorem renderSection_value_dispatch (fuel : Nat) (n : String) (children : List Tok)
    (a b : Nat) (ctx : List Value) (partials : List (String × String)) (tpl : String) :
    (jsTruthy (ctxLookup ctx n) = false →
      renderTok (fuel + 1) (.sect n children a b) ctx partials tpl = Except.ok "") ∧
    (ctxLookup ctx n = Value.vArr [] →
      renderTok (fuel + 1) (.sect n children a b) ctx partials tpl = Except.ok "") ∧
    (∀ xs, ctxLookup ctx n = Value.vArr xs →
      renderTok (fuel + 1) (.sect n children a b) ctx partials tpl =
        (xs.mapM (fun el => renderToks fuel children (el :: ctx) partials tpl)).map
          (fun rs => String.join rs)) ∧
    (∀ fields, ctxLookup ctx n = Value.vObj fields →
      renderTok (fuel + 1) (.sect n children a b) ctx partials tpl =
        renderToks fuel children (Value.vObj fields :: ctx) partials tpl) ∧
    (∀ s, ctxLookup ctx n = Value.vStr s → s ≠ "" →
      renderTok (fuel + 1) (.sect n children a b) ctx partials tpl =
        renderToks fuel children (Value.vStr s :: ctx) partials tpl) ∧
    (∀ k : Int, ctxLookup ctx n = Value.vNum k → k ≠ 0 →
      renderTok (fuel + 1) (.sect n children a b) ctx partials tpl =
        renderToks fuel children (Value.vNum k :: ctx) partials tpl) := by
  refine ⟨?_, ?_, ?_, ?_, ?_, ?_⟩
  · intro h
    simp [renderTok, renderGo, h]
    rfl
  · intro h
    simp [renderTok, renderGo, h, jsTruthy]
    rfl
  · intro xs h
    simp only [renderTok, renderToks, renderGo, h, jsTruthy, Bool.not_true,
      Bool.false_eq_true, if_false, ite_false]
    rw [foldlM_append_eq_mapM
      (fun el => renderGo fuel (RCmd.many children) (el :: ctx) partials tpl) xs ""]
    rfl
  · intro fields h
    simp [renderTok, renderToks, renderGo, h, jsTruthy]
  · intro s h hs
    have ht : jsTruthy (Value.vStr s) = true := by
      simpa [jsTruthy] using hs
    simp [renderTok, renderToks, renderGo, h, ht]
  · intro k h hk
    have ht : jsTruthy (Value.vNum k) = true := by
      simpa [jsTruthy] using hk
    simp [renderTok, renderToks, renderGo, h, ht]

set_option maxRecDepth 10000 in
/-- C8, witness: a section bound to a three-element array renders its
children exactly three times, in element order. -/
theorem renderSection_value_dispatch_witness :
    renderTok 4 (Tok.sect "xs" [Tok.vname "."] 0 0)
        [Value.vObj [("xs", Value.vArr [Value.vStr "1", Value.vStr "2", Value.vStr "3"])]]
        [] "" = Except.ok "123" := by
  have h := (renderSection_value_dispatch 3 "xs" [Tok.vname "."] 0 0
      [Value.vObj [("xs", Value.vArr [Value.vStr "1", Value.vStr "2", Value.vStr "3"])]]
      [] "").2.2.1 [Value.vStr "1", Value.vStr "2", Value.vStr "3"] rfl
  rw [h]
  rfl

/-! ## C9: no mutation of the caller's object -/

theorem heapSetFn_eq (r' : Nat) (o : Obj) :
    (fun p : Nat × Obj => if p.1 == r' then (r', o) else p) =
      (fun p : Nat × Obj => if p.1 = r' then (r', o) else p) := by
  funext p
  by_cases h : p.1 = r' <;> simp [h]

theorem heapGet_cons (p : Nat × Obj) (t : Heap) (r : Nat) :
    heapGet (p :: t) r = if p.1 = r then some p.2 else heapGet t r := by
  by_cases h : p.1 = r
  · simp [heapGet, List.find?, h]
  · have h' : (p.1 == r) = false := by simpa using h
    simp [heapGet, List.find?, h, h']

theorem heapGet_map_set_ne (t : Heap) (r r' : Nat) (o : Obj) (h : r ≠ r') :
    heapGet (t.map (fun p => if p.1 == r' then (r', o) else p)) r = heapGet t r := by
  rw [heapSetFn_eq]
  induction t with
  | nil => rfl
  | cons p tl ih =>
    by_cases hp : p.1 = r'
    · have h1 : ¬ (r' = r) := Ne.symm h
      have h2 : ¬ (p.1 = r) := by rw [hp]; exact h1
      simp only [List.map_cons, if_pos hp, heapGet_cons, ih]
      simp [h1, h2]
    · simp only [List.map_cons, if_neg hp, heapGet_cons, ih]

theorem heapGet_append_single_ne (t : Heap) (r r' : Nat) (o : Obj) (h : r ≠ r') :
    heapGet (t ++ [(r', o)]) r = heapGet t r := by
  induction t with
  | nil =>
    have h1 : ¬ (r' = r) := Ne.symm h
    simp [heapGet_cons, h1]
    try rfl
  | cons p tl ih =>
    by_cases hp : p.1 = r <;> simp [List.cons_append, heapGet_cons, hp, ih]

theorem heapGet_set_ne (t : Heap) (r r' : Nat) (o : Obj) (h : ¬ (r = r')) :
    heapGet (heapSet t r' o) r = heapGet t r := by
  unfold heapSet
  by_cases hf : (t.find? (fun p => p.1 == r')).isSome
  · rw [if_pos hf]
    exact heapGet_map_set_ne t r r' o h
  · rw [if_neg hf]
    exact heapGet_append_single_ne t r r' o h

theorem heapGet_map_set_self (t : Heap) (r : Nat) (o : Obj)
    (hf : (t.find? (fun p => p.1 == r)).isSome) :
    heapGet (t.map (fun p => if p.1 == r then (r, o) else p)) r = some o := by
  rw [heapSetFn_eq]
  induction t with
  | nil => simp [List.find?] at hf
  | cons p tl ih =>
    by_cases hp : p.1 = r
    · simp only [List.map_cons, if_pos hp, heapGet_cons]
      simp
    · have hb : (p.1 == r) = false := by simpa using hp
      have hf2 : (tl.find? (fun p => p.1 == r)).isSome := by
        simpa [List.find?, hb] using hf
      simp only [List.map_cons, if_neg hp, heapGet_cons, ih hf2]
      try simp [hp]

theorem heapGet_set_self (t : Heap) (r : Nat) (o : Obj) :
    heapGet (heapSet t r o) r = some o := by
  unfold heapSet
  by_cases hf : (t.find? (fun p => p.1 == r)).isSome
  · rw [if_pos hf]
    exact heapGet_map_set_self t r o hf
  · rw [if_neg hf]
    induction t with
    | nil => simp [heapGet_cons]
    | cons p tl ih =>
      by_cases hp : p.1 = r
      · have : (List.find? (fun p => p.1 == r) (p :: tl)).isSome := by
          simp [List.find?, (by simpa using hp : (p.1 == r) = true)]
        exact absurd this hf
      · have hb : (p.1 == r) = false := by simpa using hp
        have hf2 : ¬ (tl.find? (fun p => p.1 == r)).isSome := by
          simpa [List.find?, hb] using hf
        simpa [List.cons_append, heapGet_cons, hp] using ih hf2

theorem foldr_max_le (l : List Nat) : ∀ x ∈ l, x ≤ l.foldr max 0 := by
  induction l with
  | nil => intro x hx; cases hx
  | cons a t ih =>
    intro x hx
    rcases List.mem_cons.mp hx with h | h
    · rw [h]; exact le_max_left _ _
    · exact le_trans (ih x h) (le_max_right _ _)

theorem heapGet_freshRef (h : Heap) : heapGet h (freshRef h) = none := by
  unfold heapGet freshRef
  cases hf : h.find? (fun p => p.1 == (h.map (fun p => p.1)).foldr max 0 + 1) with
  | none => rfl
  | some p =>
    have hmem : p ∈ h := List.mem_of_find?_eq_some hf
    have hkey : p.1 ∈ h.map (fun p => p.1) := List.mem_map_of_mem _ hmem
    have hle : p.1 ≤ (h.map (fun p => p.1)).foldr max 0 := foldr_max_le _ _ hkey
    have heq : p.1 = (h.map (fun p => p.1)).foldr max 0 + 1 := by
      simpa using List.find?_some hf
    omega

theorem ref_ne_fresh (h : Heap) (r : Nat) (hr : (heapGet h r).isSome) :
    ¬ (r = freshRef h) := by
  intro he
  rw [he, heapGet_freshRef] at hr
  simp at hr

theorem except_bind_pure_ite {α β : Type} (e : Except String α) (c : Prop)
    [inst : Decidable c] (f g : α → β) :
    (do
      let x ← e
      if c then pure (f x) else pure (g x) : Except String β) =
      e.map (fun x => if c then f x else g x) := by
  cases e with
  | error err => rfl
  | ok a => by_cases hc : c <;> simp [hc, Except.map]

/-- C9: `format` never mutates the caller's object: the heap-level run
leaves the object at the caller's reference untouched (every pipeline
stage writes through the fresh copy's reference only), and its result is
the result of the pure pipeline on the object's value. -/
theorem format_no_mutation (env : Env) (fuel : Nat) (h : Heap) (r : Nat)
    (opts : FmtOptions) (hr : (heapGet h r).isSome) :
    heapGet (formatOnHeap env fuel h r opts).2 r = heapGet h r ∧
    (formatOnHeap env fuel h r opts).1 =
      format env fuel ((heapGet h r).getD []) opts := by
  have hne : ¬ (r = freshRef h) := ref_ne_fresh h r hr
  constructor
  · simp only [formatOnHeap]
    cases hcc : opts.countryCode with
    | none =>
      simp [apply_ite (fun x : Heap => heapGet x r), heapGet_set_ne, hne, ite_self]
    | some cc =>
      simp [apply_ite (fun x : Heap => heapGet x r), heapGet_set_ne, hne, ite_self]
  · simp only [formatOnHeap, format]
    cases hcc : opts.countryCode with
    | none =>
      simp only [apply_ite (fun x : Heap => heapGet x (freshRef h)),
        apply_ite (fun o : Option Obj => o.getD ([] : Obj)),
        heapGet_set_self, Option.getD_some]
      rw [except_bind_pure_ite]
    | some cc =>
      simp only [apply_ite (fun x : Heap => heapGet x (freshRef h)),
        apply_ite (fun o : Option Obj => o.getD ([] : Obj)),
        heapGet_set_self, Option.getD_some]
      rw [except_bind_pure_ite]

/-- C9, witness: a concrete heap run leaves the caller's object intact
and computes the pure pipeline's result. -/
theorem format_no_mutation_witness :
    heapGet (formatOnHeap envDefault 99 [(0, [("road", "Calle Mayor")])] 0 {}).2 0 =
      some [("road", "Calle Mayor")] ∧
    (formatOnHeap envDefault 99 [(0, [("road", "Calle Mayor")])] 0 {}).1 =
      format envDefault 99 [("road", "Calle Mayor")] {} := by
  have h := format_no_mutation envDefault 99 [(0, [("road", "Calle Mayor")])] 0 {} rfl
  refine ⟨?_, h.2⟩
  rw [h.1]
  rfl

/-! ## C10: the synthetic `attention` field -/

/-- C10: `attention` is not a known component name, and whenever the
input's key snapshot holds at least one unknown key, `cleanupInput`
(with no `replace` rules, abbreviation off, and a non-URL join) sets
`attention` to the `", "`-joined values of the unknown keys in key
order — overwriting any caller-supplied `attention` value, which is
itself an unknown key and so participates in the join. -/
theorem cleanupInput_attention (env : Env) (input : Obj) (opts : FmtOptions)
    (hab : opts.abbreviate = false)
    (hne : (objKeys input).filter (fun k => ¬ knownComponents.contains k) ≠ [])
    (hurl : isUrlString (String.intercalate ", "
      (((objKeys input).filter (fun k => ¬ knownComponents.contains k)).map
        (fun c => (jsGet input c).getD ""))) = false) :
    knownComponents.contains "attention" = false ∧
    jsGet (cleanupInput env input [] opts) "attention" =
      some (String.intercalate ", "
        (((objKeys input).filter (fun k => ¬ knownComponents.contains k)).map
          (fun c => (jsGet input c).getD ""))) := by
  refine ⟨by decide, ?_⟩
  have hpres : ∀ k, knownComponents.contains k = false →
      jsGet (countyCodeStage env (stateCodeStage env input)) k = jsGet input k := by
    intro k hk
    have h1 : k ≠ "state_code" := fun he => by
      rw [he] at hk; exact absurd hk (by decide)
    have h2 : k ≠ "state" := fun he => by
      rw [he] at hk; exact absurd hk (by decide)
    have h3 : k ≠ "city" := fun he => by
      rw [he] at hk; exact absurd hk (by decide)
    have h4 : k ≠ "county_code" := fun he => by
      rw [he] at hk; exact absurd hk (by decide)
    rw [countyCodeStage_preserves _ _ _ h4,
      stateCodeStage_preserves _ _ _ h1 h2 h3]
  have hval : (((objKeys input).filter (fun k => ¬ knownComponents.contains k)).map
      (fun c => (jsGet (countyCodeStage env (stateCodeStage env input)) c).getD "")) =
      (((objKeys input).filter (fun k => ¬ knownComponents.contains k)).map
        (fun c => (jsGet input c).getD "")) := by
    apply List.map_congr_left
    intro c hc
    have hck : knownComponents.contains c = false := by
      have := (List.mem_filter.mp hc).2
      simpa using this
    rw [hpres c hck]
  have hatt : attentionStage (objKeys input)
      (countyCodeStage env (stateCodeStage env input)) =
      objSet (countyCodeStage env (stateCodeStage env input)) "attention"
        (String.intercalate ", "
          (((objKeys input).filter (fun k => ¬ knownComponents.contains k)).map
            (fun c => (jsGet input c).getD ""))) := by
    unfold attentionStage
    rw [if_pos hne, hval]
  unfold cleanupInput
  rw [applyReplacements_nil, hatt, abbreviationStage_off env opts _ hab]
  refine urlStage_keep _ _ _ ?_ hurl
  rw [postcodeStage_preserves _ _ _ (by decide)]
  exact jsGet_objSet_self _ _ _

/-- C10, witness: an unknown key `foo` (and a caller-supplied
`attention`) end up joined into the `attention` field. -/
theorem cleanupInput_attention_witness :
    jsGet (cleanupInput envDefault
        [("attention", "call Bob"), ("road", "High St"), ("foo", "bar")] [] {})
      "attention" = some "call Bob, bar" := by
  have h := cleanupInput_attention envDefault
    [("attention", "call Bob"), ("road", "High St"), ("foo", "bar")] {}
    rfl (by decide) (by decide)
  exact h.2

/-! ## C1: output shape -/

theorem except_bind_pure_ite_ok {α β : Type} (e : Except String α) (c : Prop)
    [inst : Decidable c] (f g : α → β) (y : β)
    (h : (do
        let x ← e
        if c then pure (f x) else pure (g x) : Except String β) = Except.ok y) :
    ∃ x, e = Except.ok x ∧ y = if c then f x else g x := by
  rw [except_bind_pure_ite] at h
  cases e with
  | error err => exact absurd h (by simp [Except.map])
  | ok a => exact ⟨a, rfl, by simpa [Except.map] using h.symm⟩

theorem renderTemplate_ok_shape (env : Env) (fuel : Nat) (t : TemplateEntry)
    (input : Obj) (s : String)
    (h : renderTemplate env fuel t input = Except.ok s) : ∃ r, s = r ++ "\n" := by
  unfold renderTemplate at h
  cases hct : chooseTemplateText env t input with
  | none =>
    rw [hct] at h
    exact absurd h (by simp)
  | some tt =>
    rw [hct] at h
    have h' : (do
        let rendered ← mustacheRender fuel tt (templateInputOf input)
        let render := postRender env t rendered
        let render :=
          if jsTrimL render.data = [] then cleanupRender (fallbackJoin input) else render
        pure (render ++ "\n") : Except String String) = Except.ok s := h
    cases hmr : mustacheRender fuel tt (templateInputOf input) with
    | error e =>
      rw [hmr] at h'
      exact absurd h' (by simp)
    | ok rendered =>
      rw [hmr] at h'
      have h2 : Except.ok (α := String)
          ((if jsTrimL (postRender env t rendered).data = [] then
              cleanupRender (fallbackJoin input)
            else postRender env t rendered) ++ "\n") = Except.ok s := h'
      exact ⟨_, (Except.ok.inj h2).symm⟩

/-- C1: on success, `format` returns a newline-terminated single string
when `options.output` is not `"array"`, and an array of non-empty lines
(newline-split, blanks removed) when it is `"array"`; the other result
shape is impossible in each mode. -/
theorem format_output_shape (env : Env) (fuel : Nat) (input : Obj) (opts : FmtOptions) :
    (∀ s, opts.output ≠ some "array" →
      format env fuel input opts = Except.ok (FormatResult.str s) →
      s.data.getLast? = some '\n') ∧
    (∀ l, format env fuel input opts = Except.ok (FormatResult.arr l) →
      ∀ x ∈ l, x ≠ "") ∧
    (∀ s, opts.output = some "array" →
      format env fuel input opts ≠ Except.ok (FormatResult.str s)) ∧
    (∀ l, opts.output ≠ some "array" →
      format env fuel input opts ≠ Except.ok (FormatResult.arr l)) := by
  refine ⟨?_, ?_, ?_, ?_⟩
  · intro s hne h
    unfold format at h
    obtain ⟨x, hrt, hy⟩ := except_bind_pure_ite_ok _ _ _ _ _ h
    rw [if_neg hne] at hy
    obtain ⟨r, hr⟩ := renderTemplate_ok_shape _ _ _ _ _ hrt
    have hsx : s = x := FormatResult.str.inj hy
    rw [hsx, hr, String.data_append]
    exact List.getLast?_concat _
  · intro l h x hx
    unfold format at h
    obtain ⟨x0, hrt, hy⟩ := except_bind_pure_ite_ok _ _ _ _ _ h
    by_cases hc : opts.output = some "array"
    · rw [if_pos hc] at hy
      have hl := FormatResult.arr.inj hy
      rw [hl] at hx
      have := (List.mem_filter.mp hx).2
      simpa using this
    · rw [if_neg hc] at hy
      exact absurd hy (by simp)
  · intro s hc h
    unfold format at h
    obtain ⟨x0, hrt, hy⟩ := except_bind_pure_ite_ok _ _ _ _ _ h
    rw [if_pos hc] at hy
    exact absurd hy (by simp)
  · intro l hne h
    unfold format at h
    obtain ⟨x0, hrt, hy⟩ := except_bind_pure_ite_ok _ _ _ _ _ h
    rw [if_neg hne] at hy
    exact absurd hy (by simp)

set_option maxRecDepth 1000000 in
/-- C1, witness: a concrete run in each output mode. -/
theorem format_output_shape_witness :
    ("Semer\n").data.getLast? = some '\n' ∧ (∀ x ∈ ["Semer"], x ≠ "") :=
  ⟨(format_output_shape envDefault 60 [("road", "Semer")] {}).1 "Semer\n"
      (by decide) rfl,
   (format_output_shape envDefault 60 [("road", "Semer")]
      { output := some "array" }).2.1 ["Semer"] rfl⟩

/-! ## C2: the empty-render fallback -/

theorem kept_of_ws {c : Char} (h : isJsSpace c = true) : keptChar c = false := by
  simp [keptChar, h]

theorem ws_of_horiz {c : Char} (h : isHoriz c = true) : isJsSpace c = true := by
  have h' : c = '\t' ∨ c = ' ' := by simpa [isHoriz] using h
  rcases h' with rfl | rfl <;> decide

theorem kept_of_horiz {c : Char} (h : isHoriz c = true) : keptChar c = false :=
  kept_of_ws (ws_of_horiz h)

theorem kept_of_trailJunk {c : Char} (h : isTrailJunk c = true) : keptChar c = false := by
  have h' : (isJsSpace c = true ∨ c = ',') ∨ c = '}' := by simpa [isTrailJunk] using h
  rcases h' with (h1 | rfl) | rfl
  · exact kept_of_ws h1
  · decide
  · decide

theorem kept_of_leadJunk {c : Char} (h : isLeadJunk c = true) : keptChar c = false := by
  have h' : isJsSpace c = true ∨ c = ',' := by simpa [isLeadJunk] using h
  rcases h' with h1 | rfl
  · exact kept_of_ws h1
  · decide

theorem kept_ne_nl {c : Char} (h : keptChar c = true) : c ≠ '\n' := by
  intro he
  rw [he] at h
  exact absurd h (by decide)

theorem filter_kept_cons_unkept (c : Char) (hc : keptChar c = false) (t : List Char) :
    (c :: t).filter keptChar = t.filter keptChar := by
  rw [List.filter_cons, if_neg (by simp [hc])]

theorem filter_kept_dropWhile (p : Char → Bool)
    (hp : ∀ c, p c = true → keptChar c = false) (l : List Char) :
    (l.dropWhile p).filter keptChar = l.filter keptChar := by
  induction l with
  | nil => rfl
  | cons c t ih =>
    by_cases hc : p c = true
    · rw [List.dropWhile_cons, if_pos hc, ih, filter_kept_cons_unkept c (hp c hc) t]
    · rw [List.dropWhile_cons, if_neg hc]

theorem filter_kept_trim (l : List Char) :
    (jsTrimL l).filter keptChar = l.filter keptChar := by
  unfold jsTrimL
  rw [List.filter_reverse, filter_kept_dropWhile _ (fun c h => kept_of_ws h),
    List.filter_reverse, List.reverse_reverse,
    filter_kept_dropWhile _ (fun c h => kept_of_ws h)]

theorem hasKept_iff_filter (l : List Char) : hasKept l ↔ l.filter keptChar ≠ [] := by
  constructor
  · rintro ⟨c, hc, hk⟩ hnil
    exact (List.filter_eq_nil_iff.mp hnil c hc) hk
  · intro h
    cases hf : l.filter keptChar with
    | nil => exact absurd hf h
    | cons c t =>
      have hmem : c ∈ l.filter keptChar := by
        rw [hf]; exact List.mem_cons_self _ _
      exact ⟨c, (List.mem_filter.mp hmem).1, (List.mem_filter.mp hmem).2⟩

theorem hasKept_of_filter_eq {l l' : List Char}
    (h : List.filter keptChar l' = List.filter keptChar l) (hk : hasKept l) :
    hasKept l' := by
  rw [hasKept_iff_filter] at hk ⊢
  rw [h]
  exact hk

theorem mCommaWsComma_filter (l r : List Char) (h : mCommaWsComma l = some r) :
    r.filter keptChar = l.filter keptChar := by
  unfold mCommaWsComma at h
  split at h
  · rename_i t
    split at h
    · rename_i tail hdrop
      injection h with h
      subst h
      rw [filter_kept_cons_unkept ',' (by decide) (' ' :: tail),
        filter_kept_cons_unkept ' ' (by decide) tail,
        filter_kept_cons_unkept ',' (by decide) t,
        ← filter_kept_dropWhile isJsSpace (fun c h => kept_of_ws h) t, hdrop,
        filter_kept_cons_unkept ',' (by decide) tail]
    · exact absurd h (by simp)
  · exact absurd h (by simp)

theorem mHorizCommaHoriz_filter (l r : List Char) (h : mHorizCommaHoriz l = some r) :
    r.filter keptChar = l.filter keptChar := by
  unfold mHorizCommaHoriz at h
  split at h
  · split at h
    · split at h
      · split at h
        · split at h
          · rename_i c t hc u1 u2 d t5 hdrop hd
            injection h with h
            subst h
            rw [filter_kept_cons_unkept ',' (by decide)
                (' ' :: (d :: t5).dropWhile isHoriz),
              filter_kept_cons_unkept ' ' (by decide) ((d :: t5).dropWhile isHoriz),
              filter_kept_dropWhile isHoriz (fun x hx => kept_of_horiz hx) (d :: t5),
              ← filter_kept_dropWhile isHoriz (fun x hx => kept_of_horiz hx) (c :: t),
              hdrop,
              filter_kept_cons_unkept ',' (by decide) (d :: t5)]
          · exact absurd h (by simp)
        · exact absurd h (by simp)
      · exact absurd h (by simp)
    · exact absurd h (by simp)
  · exact absurd h (by simp)

theorem mMultiHoriz_filter (l r : List Char) (h : mMultiHoriz l = some r) :
    r.filter keptChar = l.filter keptChar := by
  unfold mMultiHoriz at h
  split at h
  · rename_i c d t
    split at h
    · rename_i hcd
      injection h with h
      subst h
      rw [filter_kept_cons_unkept ' ' (by decide) ((c :: d :: t).dropWhile isHoriz),
        filter_kept_dropWhile isHoriz (fun x hx => kept_of_horiz hx) (c :: d :: t)]
    · exact absurd h (by simp)
  · exact absurd h (by simp)

theorem mHorizNl_filter (l r : List Char) (h : mHorizNl l = some r) :
    r.filter keptChar = l.filter keptChar := by
  unfold mHorizNl at h
  split at h
  · rename_i c t
    split at h
    · rename_i hc
      injection h with h
      subst h
      rw [filter_kept_cons_unkept '\n' (by decide) t,
        filter_kept_cons_unkept c (kept_of_horiz (by simpa using hc)) ('\n' :: t),
        filter_kept_cons_unkept '\n' (by decide) t]
    · exact absurd h (by simp)
  · exact absurd h (by simp)

theorem mNlComma_filter (l r : List Char) (h : mNlComma l = some r) :
    r.filter keptChar = l.filter keptChar := by
  unfold mNlComma at h
  split at h
  · rename_i t
    injection h with h
    subst h
    rw [filter_kept_cons_unkept '\n' (by decide) t,
      filter_kept_cons_unkept '\n' (by decide) (',' :: t),
      filter_kept_cons_unkept ',' (by decide) t]
  · exact absurd h (by simp)

theorem mMultiComma_filter (l r : List Char) (h : mMultiComma l = some r) :
    r.filter keptChar = l.filter keptChar := by
  unfold mMultiComma at h
  split at h
  · rename_i t
    injection h with h
    subst h
    rw [filter_kept_cons_unkept ',' (by decide)
        ((',' :: ',' :: t).dropWhile (fun x => x == ',')),
      filter_kept_dropWhile (fun x => x == ',')
        (fun x hx => by rw [show x = ',' from by simpa using hx]; decide)
        (',' :: ',' :: t)]
  · exact absurd h (by simp)

theorem mCommaNl_filter (l r : List Char) (h : mCommaNl l = some r) :
    r.filter keptChar = l.filter keptChar := by
  unfold mCommaNl at h
  split at h
  · rename_i t
    injection h with h
    subst h
    rw [filter_kept_cons_unkept '\n' (by decide) t,
      filter_kept_cons_unkept ',' (by decide) ('\n' :: t),
      filter_kept_cons_unkept '\n' (by decide) t]
  · exact absurd h (by simp)

theorem mNlHoriz_filter (l r : List Char) (h : mNlHoriz l = some r) :
    r.filter keptChar = l.filter keptChar := by
  unfold mNlHoriz at h
  split at h
  · rename_i c t
    split at h
    · rename_i hc
      injection h with h
      subst h
      rw [filter_kept_cons_unkept '\n' (by decide) ((c :: t).dropWhile isHoriz),
        filter_kept_dropWhile isHoriz (fun x hx => kept_of_horiz hx) (c :: t),
        filter_kept_cons_unkept '\n' (by decide) (c :: t)]
    · exact absurd h (by simp)
  · exact absurd h (by simp)

theorem mMultiNl_filter (l r : List Char) (h : mMultiNl l = some r) :
    r.filter keptChar = l.filter keptChar := by
  unfold mMultiNl at h
  split at h
  · rename_i t
    injection h with h
    subst h
    rw [filter_kept_cons_unkept '\n' (by decide)
        (('\n' :: '\n' :: t).dropWhile (fun x => x == '\n')),
      filter_kept_dropWhile (fun x => x == '\n')
        (fun x hx => by rw [show x = '\n' from by simpa using hx]; decide)
        ('\n' :: '\n' :: t)]
  · exact absurd h (by simp)

theorem replaceFirst_filter (m : List Char → Option (List Char))
    (hm : ∀ l r, m l = some r → r.filter keptChar = l.filter keptChar) :
    ∀ l, (replaceFirst m l).filter keptChar = l.filter keptChar := by
  intro l
  induction l with
  | nil =>
    unfold replaceFirst
    cases hmn : m [] with
    | some r => exact hm [] r hmn
    | none => rfl
  | cons c t ih =>
    unfold replaceFirst
    cases hmn : m (c :: t) with
    | some r => exact hm _ r hmn
    | none =>
      rw [List.filter_cons, List.filter_cons]
      by_cases hk : keptChar c = true
      · rw [if_pos hk, if_pos hk, ih]
      · rw [if_neg hk, if_neg hk]
        exact ih

theorem stripTrailingJunk_filter (l : List Char) :
    (stripTrailingJunk l).filter keptChar = l.filter keptChar := by
  unfold stripTrailingJunk
  rw [List.filter_reverse,
    filter_kept_dropWhile isTrailJunk (fun c h => kept_of_trailJunk h) l.reverse,
    List.filter_reverse, List.reverse_reverse]

theorem stripLeadingJunk_filter (l : List Char) :
    (stripLeadingJunk l).filter keptChar = l.filter keptChar :=
  filter_kept_dropWhile isLeadJunk (fun _ h => kept_of_leadJunk h) l

theorem stripLeadingDash_filter (l : List Char) :
    (stripLeadingDash l).filter keptChar = l.filter keptChar := by
  unfold stripLeadingDash
  split
  · rename_i t
    rw [filter_kept_cons_unkept '-' (by decide) (' ' :: t),
      filter_kept_cons_unkept ' ' (by decide) t]
  · rfl

theorem mem_intersperse_of_mem {α : Type} {x : α} (sep : α) :
    ∀ (l : List α), x ∈ l → x ∈ l.intersperse sep := by
  intro l
  induction l with
  | nil => intro h; cases h
  | cons a t ih =>
    intro h
    cases t with
    | nil => simpa using h
    | cons b t2 =>
      rw [List.intersperse_cons_cons]
      rcases List.mem_cons.mp h with h1 | h1
      · rw [h1]; exact List.mem_cons_self _ _
      · exact List.mem_cons_of_mem _ (List.mem_cons_of_mem _ (ih h1))

theorem mem_joinWith (glue : List Char) (chunks : List (List Char)) (ch : List Char)
    (hch : ch ∈ chunks) (c : Char) (hc : c ∈ ch) : c ∈ joinWith glue chunks := by
  have : c ∈ (chunks.intersperse glue).flatten :=
    List.mem_flatten.mpr ⟨ch, mem_intersperse_of_mem glue chunks hch, hc⟩
  exact this

theorem splitCommaSpace_mem (c : Char) (hkc : keptChar c = true) :
    ∀ l, c ∈ l → ∃ ch ∈ splitCommaSpace l, c ∈ ch := by
  intro l
  induction l using splitCommaSpace.induct with
  | case1 => intro h; cases h
  | case2 t ih =>
    intro h
    rcases List.mem_cons.mp h with h1 | h1
    · exact absurd (h1 ▸ hkc) (by decide)
    · rcases List.mem_cons.mp h1 with h2 | h2
      · exact absurd (h2 ▸ hkc) (by decide)
      · obtain ⟨ch, hch, hcm⟩ := ih h2
        exact ⟨ch, List.mem_cons_of_mem _ hch, hcm⟩
  | case3 c' t hne h r hsp ih =>
    intro hmem
    have heq : splitCommaSpace (c' :: t) = (c' :: h) :: r := by
      rw [splitCommaSpace.eq_3 c' t hne, hsp]
    rcases List.mem_cons.mp hmem with h1 | h1
    · refine ⟨c' :: h, by rw [heq]; exact List.mem_cons_self _ _, ?_⟩
      rw [h1]; exact List.mem_cons_self _ _
    · obtain ⟨ch, hch, hcm⟩ := ih h1
      rw [hsp] at hch
      rcases List.mem_cons.mp hch with h2 | h2
      · refine ⟨c' :: h, by rw [heq]; exact List.mem_cons_self _ _, ?_⟩
        exact List.mem_cons_of_mem _ (h2 ▸ hcm)
      · exact ⟨ch, by rw [heq]; exact List.mem_cons_of_mem _ h2, hcm⟩
  | case4 c' t hne hsp ih =>
    intro hmem
    have heq : splitCommaSpace (c' :: t) = [[c']] := by
      rw [splitCommaSpace.eq_3 c' t hne, hsp]
    rcases List.mem_cons.mp hmem with h1 | h1
    · exact ⟨[c'], by rw [heq]; exact List.mem_cons_self _ _,
        by rw [h1]; exact List.mem_cons_self _ _⟩
    · obtain ⟨ch, hch, _⟩ := ih h1
      rw [hsp] at hch
      cases hch

theorem splitNl_mem (c : Char) (hc : c ≠ '\n') :
    ∀ l, c ∈ l → ∃ ch ∈ splitNl l, c ∈ ch := by
  intro l
  induction l using splitNl.induct with
  | case1 => intro h; cases h
  | case2 t ih =>
    intro h
    rcases List.mem_cons.mp h with h1 | h1
    · exact absurd h1 hc
    · obtain ⟨ch, hch, hcm⟩ := ih h1
      exact ⟨ch, List.mem_cons_of_mem _ hch, hcm⟩
  | case3 c' t hne h r hsp ih =>
    intro hmem
    have heq : splitNl (c' :: t) = (c' :: h) :: r := by
      rw [splitNl.eq_3 c' t hne, hsp]
    rcases List.mem_cons.mp hmem with h1 | h1
    · refine ⟨c' :: h, by rw [heq]; exact List.mem_cons_self _ _, ?_⟩
      rw [h1]; exact List.mem_cons_self _ _
    · obtain ⟨ch, hch, hcm⟩ := ih h1
      rw [hsp] at hch
      rcases List.mem_cons.mp hch with h2 | h2
      · refine ⟨c' :: h, by rw [heq]; exact List.mem_cons_self _ _, ?_⟩
        exact List.mem_cons_of_mem _ (h2 ▸ hcm)
      · exact ⟨ch, by rw [heq]; exact List.mem_cons_of_mem _ h2, hcm⟩
  | case4 c' t hne hsp ih =>
    intro hmem
    have heq : splitNl (c' :: t) = [[c']] := by
      rw [splitNl.eq_3 c' t hne, hsp]
    rcases List.mem_cons.mp hmem with h1 | h1
    · exact ⟨[c'], by rw [heq]; exact List.mem_cons_self _ _,
        by rw [h1]; exact List.mem_cons_self _ _⟩
    · obtain ⟨ch, hch, _⟩ := ih h1
      rw [hsp] at hch
      cases hch

theorem robust_kept {c : Char} (h : robustChar c = true) : keptChar c = true :=
  ((Bool.and_eq_true _ _).mp h).1

theorem robust_not_proto {c : Char} (h : robustChar c = true) {k : List Char}
    (hk : k ∈ objProtoKeys) (hc : c ∈ k) : False := by
  have h2 : objProtoKeys.any (fun k => k.contains c) = false := by
    have h1 := ((Bool.and_eq_true _ _).mp h).2
    simpa using h1
  have h3 := List.any_eq_false.mp h2 k hk
  exact h3 (List.elem_eq_true_of_mem hc)

theorem mem_of_filter_eq {c : Char} {l l' : List Char}
    (h : List.filter keptChar l' = List.filter keptChar l) (hk : keptChar c = true)
    (hc : c ∈ l) : c ∈ l' := by
  have h1 : c ∈ l.filter keptChar := List.mem_filter.mpr ⟨hc, hk⟩
  rw [← h] at h1
  exact (List.mem_filter.mp h1).1

theorem dedupeChunks_mem (c : Char) (hrc : robustChar c = true)
    (modifier : List Char → List Char)
    (hmod : ∀ l, c ∈ l → c ∈ modifier l) :
    ∀ (chunks seen : List (List Char)) (ch0 : List Char),
      ch0 ∈ chunks → c ∈ jsTrimL ch0 → jsTrimL ch0 ∉ seen →
      ∃ out ∈ dedupeChunks modifier seen chunks, c ∈ out := by
  intro chunks
  induction chunks with
  | nil => intro seen ch0 h; cases h
  | cons ch rest ih =>
    intro seen ch0 hmem hc hns
    simp only [dedupeChunks]
    rcases List.mem_cons.mp hmem with h1 | h1
    · subst h1
      by_cases hny : toLowerL (jsTrimL ch0) = ("new york").data
      · rw [if_pos hny]
        exact ⟨jsTrimL ch0, List.mem_cons_self _ _, hc⟩
      · rw [if_neg hny, if_neg (fun hcond => hcond.elim hns
          (fun hpk => robust_not_proto hrc hpk hc))]
        exact ⟨modifier (jsTrimL ch0), List.mem_cons_self _ _, hmod _ hc⟩
    · by_cases hny : toLowerL (jsTrimL ch) = ("new york").data
      · rw [if_pos hny]
        by_cases heq : jsTrimL ch0 = jsTrimL ch
        · exact ⟨jsTrimL ch, List.mem_cons_self _ _, heq ▸ hc⟩
        · obtain ⟨out, ho, hco⟩ := ih (jsTrimL ch :: seen) ch0 h1 hc (by
            intro hin
            rcases List.mem_cons.mp hin with h2 | h2
            · exact heq h2
            · exact hns h2)
          exact ⟨out, List.mem_cons_of_mem _ ho, hco⟩
      · rw [if_neg hny]
        by_cases hcond : jsTrimL ch ∈ seen ∨ jsTrimL ch ∈ objProtoKeys
        · rw [if_pos hcond]
          exact ih seen ch0 h1 hc hns
        · rw [if_neg hcond]
          by_cases heq : jsTrimL ch0 = jsTrimL ch
          · exact ⟨modifier (jsTrimL ch), List.mem_cons_self _ _, hmod _ (heq ▸ hc)⟩
          · obtain ⟨out, ho, hco⟩ := ih (jsTrimL ch :: seen) ch0 h1 hc (by
              intro hin
              rcases List.mem_cons.mp hin with h2 | h2
              · exact heq h2
              · exact hns h2)
            exact ⟨out, List.mem_cons_of_mem _ ho, hco⟩

theorem dedupeInner_mem (c : Char) (hrc : robustChar c = true)
    (s : List Char) (hc : c ∈ s) : c ∈ dedupeInner s := by
  obtain ⟨ch, hch, hcm⟩ := splitCommaSpace_mem c (robust_kept hrc) s hc
  have hc2 : c ∈ jsTrimL ch :=
    mem_of_filter_eq (filter_kept_trim ch) (robust_kept hrc) hcm
  obtain ⟨out, ho, hco⟩ :=
    dedupeChunks_mem c hrc id (fun l h => h) (splitCommaSpace s) [] ch hch hc2
      (by simp)
  exact mem_joinWith [',', ' '] _ out ho c hco

theorem dedupeText_mem (c : Char) (hrc : robustChar c = true)
    (t : List Char) (hc : c ∈ t) : c ∈ dedupeText t := by
  obtain ⟨ch, hch, hcm⟩ := splitNl_mem c (kept_ne_nl (robust_kept hrc)) t hc
  have hc2 : c ∈ jsTrimL ch :=
    mem_of_filter_eq (filter_kept_trim ch) (robust_kept hrc) hcm
  obtain ⟨out, ho, hco⟩ :=
    dedupeChunks_mem c hrc dedupeInner (fun l h => dedupeInner_mem c hrc l h)
      (splitNl t) [] ch hch hc2 (by simp)
  exact mem_joinWith ['\n'] _ out ho c hco

theorem cleanupRenderL_mem (c : Char) (hrc : robustChar c = true)
    (t : List Char) (hc : c ∈ t) : c ∈ cleanupRenderL t := by
  unfold cleanupRenderL
  refine mem_of_filter_eq (filter_kept_trim _) (robust_kept hrc) ?_
  simp only [cleanupSteps, List.foldl_cons, List.foldl_nil]
  apply dedupeText_mem c hrc
  refine mem_of_filter_eq (replaceFirst_filter _ mMultiNl_filter _)
    (robust_kept hrc) ?_
  apply dedupeText_mem c hrc
  refine mem_of_filter_eq (replaceFirst_filter _ mNlHoriz_filter _)
    (robust_kept hrc) ?_
  apply dedupeText_mem c hrc
  refine mem_of_filter_eq (replaceFirst_filter _ mCommaNl_filter _)
    (robust_kept hrc) ?_
  apply dedupeText_mem c hrc
  refine mem_of_filter_eq (replaceFirst_filter _ mMultiComma_filter _)
    (robust_kept hrc) ?_
  apply dedupeText_mem c hrc
  refine mem_of_filter_eq (replaceFirst_filter _ mNlComma_filter _)
    (robust_kept hrc) ?_
  apply dedupeText_mem c hrc
  refine mem_of_filter_eq (replaceFirst_filter _ mHorizNl_filter _)
    (robust_kept hrc) ?_
  apply dedupeText_mem c hrc
  refine mem_of_filter_eq (replaceFirst_filter _ mMultiHoriz_filter _)
    (robust_kept hrc) ?_
  apply dedupeText_mem c hrc
  refine mem_of_filter_eq (replaceFirst_filter _ mHorizCommaHoriz_filter _)
    (robust_kept hrc) ?_
  apply dedupeText_mem c hrc
  refine mem_of_filter_eq (replaceFirst_filter _ mCommaWsComma_filter _)
    (robust_kept hrc) ?_
  apply dedupeText_mem c hrc
  refine mem_of_filter_eq (stripLeadingDash_filter _) (robust_kept hrc) ?_
  apply dedupeText_mem c hrc
  refine mem_of_filter_eq (stripLeadingJunk_filter _) (robust_kept hrc) ?_
  apply dedupeText_mem c hrc
  refine mem_of_filter_eq (stripTrailingJunk_filter _) (robust_kept hrc) ?_
  exact hc

theorem fallbackJoin_mem (input : Obj) (p : String × String) (hp : p ∈ input)
    (c : Char) (hc : c ∈ p.2.data) : c ∈ (fallbackJoin input).data := by
  have hne : p.2.data ≠ [] := by
    intro he
    rw [he] at hc
    cases hc
  have hmem1 : p.2.data ∈ (input.map (fun q => q.2.data)) :=
    List.mem_map_of_mem _ hp
  have hmem2 : p.2.data ∈
      ((input.map (fun q => q.2.data)).filter (fun s => s ≠ [])) :=
    List.mem_filter.mpr ⟨hmem1, by simpa using hne⟩
  exact mem_joinWith (", ").data _ p.2.data hmem2 c hc


theorem string_append_newline_eq {r : String} (h : r ++ "\n" = "\n") : r = "" := by
  have hd : r.data ++ ("\n").data = ("\n").data := by
    rw [← String.data_append, h]
  have hlen : r.data.length + 1 = 1 := by
    simpa using congrArg List.length hd
  have hnil : r.data = [] := List.eq_nil_of_length_eq_zero (by omega)
  cases r with
  | mk data =>
    simp only at hnil
    rw [hnil]
    try rfl

set_option maxRecDepth 1000000 in
set_option maxHeartbeats 4000000 in
/-- C2, counterexample: each of `\x7b road: "," \x7d` and
`\x7b road: "constructor" \x7d` has a non-empty field value, yet `format`
returns exactly the trailing newline.  For the first, the rendering
cleans to empty and the fallback join (`","`) is itself erased by the
cleanup pass.  For the second, the dedupe step reads
`seen["constructor"]` on a plain `\x7b\x7d` object, hits the inherited
`Object.prototype.constructor` (truthy), and silently drops the line —
both in the original rendering and in the cleaned fallback join. -/
theorem format_fallback_empty_output :
    format envDefault 999 [("road", ",")] {} = Except.ok (FormatResult.str "\n") ∧
    ("," : String) ≠ "" ∧
    format envDefault 999 [("road", "constructor")] {} =
      Except.ok (FormatResult.str "\n") ∧
    ("constructor" : String) ≠ "" :=
  ⟨rfl, by decide, rfl, by decide⟩

set_option maxHeartbeats 1600000 in
/-- C2, amended: when the rendering is empty after cleanup,
`renderTemplate` falls back to joining the truthy field values of the
normalized input with `", "` and cleaning that string; the final string
exceeds the trailing newline provided some field value holds a character
that the cleanup pass never deletes (not whitespace, comma, closing
brace or dash) and that occurs in no `Object.prototype` property name
(the dedupe step tracks seen chunks in a plain object, so a trimmed line
or comma-segment spelling an inherited property name — `constructor`,
`toString`, … — reads truthy and is dropped even on first occurrence).
With fields valued purely in punctuation, or in such property names, the
output can be exactly the newline. -/
theorem renderTemplate_fallback_nonempty (env : Env) (fuel : Nat) (t : TemplateEntry)
    (input : Obj) :
    (∀ tt rendered, chooseTemplateText env t input = some tt →
      mustacheRender fuel tt (templateInputOf input) = Except.ok rendered →
      jsTrimL (postRender env t rendered).data = [] →
      renderTemplate env fuel t input =
        Except.ok (cleanupRender (fallbackJoin input) ++ "\n")) ∧
    (∀ p, p ∈ input → ∀ c, c ∈ p.2.data → robustChar c = true →
      ∀ s, renderTemplate env fuel t input = Except.ok s → s ≠ "\n") := by
  constructor
  · intro tt rendered hct hmr htrim
    unfold renderTemplate
    rw [hct]
    show (do
        let rendered ← mustacheRender fuel tt (templateInputOf input)
        let render := postRender env t rendered
        let render :=
          if jsTrimL render.data = [] then cleanupRender (fallbackJoin input) else render
        pure (render ++ "\n") : Except String String) = _
    rw [hmr]
    show Except.ok ((if jsTrimL (postRender env t rendered).data = [] then
        cleanupRender (fallbackJoin input) else postRender env t rendered) ++ "\n") = _
    rw [if_pos htrim]
  · intro p hp c hcm hrc s hok hsn
    unfold renderTemplate at hok
    cases hct : chooseTemplateText env t input with
    | none =>
      rw [hct] at hok
      exact absurd hok (by simp)
    | some tt =>
      rw [hct] at hok
      have h' : (do
          let rendered ← mustacheRender fuel tt (templateInputOf input)
          let render := postRender env t rendered
          let render :=
            if jsTrimL render.data = [] then cleanupRender (fallbackJoin input) else render
          pure (render ++ "\n") : Except String String) = Except.ok s := hok
      cases hmr : mustacheRender fuel tt (templateInputOf input) with
      | error e =>
        rw [hmr] at h'
        exact absurd h' (by simp)
      | ok rendered =>
        rw [hmr] at h'
        have h2 : Except.ok (α := String)
            ((if jsTrimL (postRender env t rendered).data = [] then
                cleanupRender (fallbackJoin input)
              else postRender env t rendered) ++ "\n") = Except.ok s := h'
        have hs := Except.ok.inj h2
        rw [← hs] at hsn
        have hrb := string_append_newline_eq hsn
        by_cases hcnd : jsTrimL (postRender env t rendered).data = []
        · rw [if_pos hcnd] at hrb
          have hk2 : c ∈ cleanupRenderL (fallbackJoin input).data :=
            cleanupRenderL_mem c hrc _ (fallbackJoin_mem input p hp c hcm)
          have hgen : ∀ (L : List Char), String.mk L = "" → L = [] := by
            intro L hL
            have hq : (String.mk L).data = ("" : String).data :=
              congrArg String.data hL
            have h3 : (String.mk L).data = L := rfl
            have h4 : ("" : String).data = [] := rfl
            rw [h3, h4] at hq
            exact hq
          unfold cleanupRender at hrb
          have hnil := hgen _ hrb
          rw [hnil] at hk2
          cases hk2
        · rw [if_neg hcnd] at hrb
          rw [hrb] at hcnd
          exact hcnd rfl

set_option maxRecDepth 1000000 in
set_option maxHeartbeats 4000000 in
/-- C2, witness: the fallback equation at the concrete empty-render run,
and non-emptiness at a run whose field value holds a robust character
(the digit `1`). -/
theorem renderTemplate_fallback_nonempty_witness :
    renderTemplate envDefault 60 defaultTemplateEntry [("road", ",")] =
      Except.ok (cleanupRender (fallbackJoin [("road", ",")]) ++ "\n") ∧
    ("1\n" : String) ≠ "\n" := by
  constructor
  · exact (renderTemplate_fallback_nonempty envDefault 60 defaultTemplateEntry
      [("road", ",")]).1 defaultAddressTemplate "\n\n \n , \n\n \n\n \n\n\n" rfl rfl rfl
  · exact (renderTemplate_fallback_nonempty envDefault 60 defaultTemplateEntry
      [("road", "1")]).2 ("road", "1") (List.mem_cons_self _ _)
      '1' (by decide) (by decide) "1\n" rfl

/-! ## C4: primary versus fallback template selection -/

/-- C4: `chooseTemplateText` selects the fallback body exactly when both
`road` and `postcode` are absent (or empty); when at least one of them is
present the primary `address_template` — or the global default's — is
selected. -/
theorem chooseTemplateText_fallback_iff (env : Env) (t : TemplateEntry) (input : Obj) :
    chooseTemplateText env t input =
      if truthyAt input "road" = false ∧ truthyAt input "postcode" = false then
        jsOrTemplate t.fallback_template (defaultEntry env).fallback_template
      else
        jsOrTemplate t.address_template (defaultEntry env).address_template := by
  unfold chooseTemplateText
  cases h1 : truthyAt input "road" <;> cases h2 : truthyAt input "postcode" <;>
    simp [h1, h2]

end AddrFmt
